import Mathlib

/-!
# Verification of the attachments unpacking / routing layer

A shallow embedding in Lean 4 of the core of the `attachments` library
(`src/attachments/unpack.py`, `core.py`, `utils.py`, `dsl.py`,
`processors/__init__.py`), together with theorems settling the frozen
claims about it.

Modelling conventions:
* Python `str` values are modelled as `List Char` (`Name`), so that the
  string algorithms of the source can be reproduced and reasoned about
  directly.  Concrete literals are written as `"...".data`.
* Python `bytes` values are modelled as `List Nat`.
* Python exceptions are modelled with `Except Name`: a `.error` value is a
  raised exception carrying its message.
* The external archive libraries (`zipfile`, `tarfile`) are modelled by an
  inductive `Blob` type: each constructor records the outcome of the two
  byte-stream probes used by the source (`data[:2] == b"PK"` and
  `tarfile.open` succeeding) together with the member structure the
  library would yield, while also carrying the underlying byte string.
-/

namespace Attachments

abbrev Name := List Char

/-- Python `s.split("/")` on a `List Char` string: the list of (possibly
empty) segments between `'/'` separators; splitting the empty string
yields `[""]`.  The result is always nonempty, so taking `headI`/`tail`
of the recursive call loses nothing. -/
def splitSlash : Name → List Name
  | [] => [[]]
  | c :: rest =>
    if c = '/' then [] :: splitSlash rest
    else (c :: (splitSlash rest).headI) :: (splitSlash rest).tail

/-- Python `"/".join(parts)`. -/
def joinSlash : List Name → Name
  | [] => []
  | [p] => p
  | p :: rest => p ++ '/' :: joinSlash rest

/-- Python `str.lower()` (ASCII-faithful; the source only compares ASCII
suffixes and extensions). -/
def lowerName (n : Name) : Name := n.map Char.toLower

/-- The segment list built by `_sanitize_member_name` (unpack.py, lines
113-123): backslashes become slashes, leading slashes are stripped, and
every segment equal to `""`, `"."` or `".."` is dropped. -/
def sanitizeParts (name : Name) : List Name :=
  (splitSlash ((name.map (fun c => if c = '\\' then '/' else c)).dropWhile
    (fun c => c = '/'))).filter
    (fun p => decide (p ≠ [] ∧ p ≠ ['.'] ∧ p ≠ ['.', '.']))

/-- `_sanitize_member_name` (unpack.py, lines 113-123): the surviving
segments rejoined with `"/"`. -/
def sanitizeMemberName (name : Name) : Name := joinSlash (sanitizeParts name)

/-- `RAW_ARCHIVE_SUFFIXES` (unpack.py, lines 96-105). -/
def RAW_ARCHIVE_SUFFIXES : List Name :=
  [".zip".data, ".tar".data, ".tgz".data, ".tar.gz".data,
   ".tbz2".data, ".tar.bz2".data, ".txz".data, ".tar.xz".data]

/-- `_is_raw_archive_name` (unpack.py, lines 108-110). -/
def isRawArchiveName (name : Name) : Bool :=
  RAW_ARCHIVE_SUFFIXES.any (fun suf => suf.isSuffixOf (lowerName name))

/-! ## Facts about the sanitizer -/

theorem splitSlash_ne_nil (s : Name) : splitSlash s ≠ [] := by
  cases s with
  | nil => simp [splitSlash]
  | cons c rest => simp only [splitSlash]; split <;> simp

theorem no_slash_of_mem_splitSlash (s : Name) :
    ∀ p ∈ splitSlash s, '/' ∉ p := by
  induction s with
  | nil =>
    intro p hp
    simp [splitSlash] at hp
    simp [hp]
  | cons c rest ih =>
    intro p hp
    simp only [splitSlash] at hp
    by_cases hc : c = '/'
    · rw [if_pos hc] at hp
      rcases List.mem_cons.mp hp with h | h
      · simp [h]
      · exact ih p h
    · rw [if_neg hc] at hp
      obtain ⟨a, t, hsp⟩ : ∃ a t, splitSlash rest = a :: t := by
        cases hq : splitSlash rest with
        | nil => exact absurd hq (splitSlash_ne_nil rest)
        | cons a t => exact ⟨a, t, rfl⟩
      rw [hsp] at hp
      simp only [List.headI, List.tail] at hp
      rcases List.mem_cons.mp hp with h | h
      · subst h
        intro hmem
        rcases List.mem_cons.mp hmem with h' | h'
        · exact hc h'.symm
        · exact ih a (hsp ▸ List.mem_cons_self a t) h'
      · exact ih p (hsp ▸ List.mem_cons_of_mem a h)

theorem splitSlash_cons_of_ne (c : Char) (rest : Name) (hc : c ≠ '/') :
    splitSlash (c :: rest) =
      (c :: (splitSlash rest).headI) :: (splitSlash rest).tail := by
  simp [splitSlash, hc]

theorem splitSlash_append_of_no_slash (p s : Name) (hp : '/' ∉ p) :
    splitSlash (p ++ '/' :: s) = p :: splitSlash s := by
  induction p with
  | nil => simp [splitSlash]
  | cons c rest ih =>
    have hc : c ≠ '/' := fun h => hp (h ▸ List.mem_cons_self c rest)
    have hrest : '/' ∉ rest := fun h => hp (List.mem_cons_of_mem c h)
    rw [List.cons_append, splitSlash_cons_of_ne c _ hc, ih hrest]
    simp

theorem splitSlash_of_no_slash (p : Name) (hp : '/' ∉ p) :
    splitSlash p = [p] := by
  induction p with
  | nil => simp [splitSlash]
  | cons c rest ih =>
    have hc : c ≠ '/' := fun h => hp (h ▸ List.mem_cons_self c rest)
    have hrest : '/' ∉ rest := fun h => hp (List.mem_cons_of_mem c h)
    rw [splitSlash_cons_of_ne c _ hc, ih hrest]
    simp

theorem splitSlash_joinSlash (parts : List Name)
    (hne : parts ≠ []) (hns : ∀ p ∈ parts, '/' ∉ p) :
    splitSlash (joinSlash parts) = parts := by
  induction parts with
  | nil => exact absurd rfl hne
  | cons p rest ih =>
    cases rest with
    | nil =>
      exact splitSlash_of_no_slash p (hns p (List.mem_cons_self p []))
    | cons q qs =>
      have hp := hns p (List.mem_cons_self p (q :: qs))
      have hrest : ∀ r ∈ q :: qs, '/' ∉ r := fun r hr =>
        hns r (List.mem_cons_of_mem p hr)
      have hj : joinSlash (p :: q :: qs) = p ++ '/' :: joinSlash (q :: qs) := rfl
      rw [hj, splitSlash_append_of_no_slash p _ hp, ih (by simp) hrest]

/-- Every segment surviving the sanitizer's filter is nonempty, is not a
dot segment, and contains no slash. -/
theorem sanitizeParts_ok (s : Name) :
    ∀ p ∈ sanitizeParts s,
      p ≠ [] ∧ p ≠ ['.'] ∧ p ≠ ['.', '.'] ∧ '/' ∉ p := by
  intro p hp
  rw [sanitizeParts, List.mem_filter] at hp
  obtain ⟨hmem, hdec⟩ := hp
  have h := of_decide_eq_true hdec
  exact ⟨h.1, h.2.1, h.2.2, no_slash_of_mem_splitSlash _ p hmem⟩

/-- C2, part 1: the sanitized name never starts with a slash. -/
theorem sanitizeMemberName_not_absolute (s : Name) :
    (sanitizeMemberName s).head? ≠ some '/' := by
  rw [sanitizeMemberName]
  cases hparts : sanitizeParts s with
  | nil => simp [joinSlash]
  | cons p rest =>
    have hp : p ≠ [] ∧ p ≠ ['.'] ∧ p ≠ ['.', '.'] ∧ '/' ∉ p :=
      sanitizeParts_ok s p (hparts ▸ List.mem_cons_self p rest)
    cases p with
    | nil => exact absurd rfl hp.1
    | cons c cs =>
      have hc : c ≠ '/' := fun h => hp.2.2.2 (h ▸ List.mem_cons_self c cs)
      cases rest with
      | nil =>
        simp only [joinSlash, List.head?]
        intro h
        exact hc (Option.some.inj h)
      | cons q qs =>
        have hj : joinSlash ((c :: cs) :: q :: qs) =
            (c :: cs) ++ '/' :: joinSlash (q :: qs) := rfl
        rw [hj, List.cons_append]
        simp only [List.head?]
        intro h
        exact hc (Option.some.inj h)

/-- C2, part 2: the sanitized name contains no `"."` or `".."` segment. -/
theorem sanitizeMemberName_no_dot_segments (s : Name) :
    ∀ p ∈ splitSlash (sanitizeMemberName s), p ≠ ['.'] ∧ p ≠ ['.', '.'] := by
  intro p hp
  rw [sanitizeMemberName] at hp
  by_cases hne : sanitizeParts s = []
  · rw [hne] at hp
    simp only [joinSlash, splitSlash] at hp
    have h := List.mem_singleton.mp hp
    subst h
    exact ⟨by simp, by simp⟩
  · rw [splitSlash_joinSlash (sanitizeParts s) hne
      (fun q hq => (sanitizeParts_ok s q hq).2.2.2)] at hp
    exact ⟨(sanitizeParts_ok s p hp).2.1, (sanitizeParts_ok s p hp).2.2.1⟩

/-- C2: the sanitizer converts backslashes to slashes, strips leading
slashes, drops `""`/`"."`/`".."` segments and rejoins with `"/"` (holds
definitionally); the result never starts with `/`, has no `"."` or `".."`
segment, and sanitizing `"../../etc/passwd"` yields `"etc/passwd"`.  The
function is total, so no error is ever raised. -/
theorem c2_sanitizer_correct :
    (∀ s : Name,
      sanitizeMemberName s =
        joinSlash ((splitSlash ((s.map (fun c => if c = '\\' then '/' else c)).dropWhile
          (fun c => c = '/'))).filter
          (fun p => decide (p ≠ [] ∧ p ≠ ['.'] ∧ p ≠ ['.', '.'])))) ∧
    (∀ s : Name, (sanitizeMemberName s).head? ≠ some '/') ∧
    (∀ s : Name, ∀ p ∈ splitSlash (sanitizeMemberName s),
      p ≠ ['.'] ∧ p ≠ ['.', '.']) ∧
    sanitizeMemberName "../../etc/passwd".data = "etc/passwd".data := by
  refine ⟨fun s => rfl, sanitizeMemberName_not_absolute,
    sanitizeMemberName_no_dot_segments, by decide⟩

/-- Witness for C2 at concrete inputs. -/
theorem c2_sanitizer_correct_witness :
    (sanitizeMemberName "/\\..\\a/./b".data).head? ≠ some '/' ∧
    (['a'] ∈ splitSlash (sanitizeMemberName "/\\..\\a/./b".data) →
      ['a'] ≠ ['.'] ∧ ['a'] ≠ ['.', '.']) ∧
    sanitizeMemberName "../../etc/passwd".data = "etc/passwd".data := by
  refine ⟨c2_sanitizer_correct.2.1 _, fun h => c2_sanitizer_correct.2.2.1 _ ['a'] h,
    c2_sanitizer_correct.2.2.2⟩

/-! ## Byte blobs and the archive exploder

`_is_zip_bytes` is the two-byte `PK` signature probe and `_is_tar_bytes`
is a full `tarfile.open` probe.  A byte string therefore falls in exactly
one of four classes, which the `Blob` constructors record together with
the member structure the external library would produce and the raw byte
string itself: `raw` (neither probe succeeds), `zipBad` (`PK` signature
but `zipfile.ZipFile` raises), `zip` (`PK` signature, well-formed, with
its member list in container order), `tar` (no `PK` signature,
`tarfile.open` succeeds, with its member list). -/

mutual
inductive Blob where
  | raw (bs : List Nat) : Blob
  | zipBad (bs : List Nat) : Blob
  | zip (bs : List Nat) (members : ZipMembers) : Blob
  | tar (bs : List Nat) (members : TarMembers) : Blob

/-- Zip entries as `zf.infolist()` yields them: filename, `is_dir()`
flag, and the bytes read from the member. -/
inductive ZipMembers where
  | nil : ZipMembers
  | cons (fname : Name) (isDir : Bool) (content : Blob) (rest : ZipMembers) :
      ZipMembers

/-- Tar entries as `tf.getmembers()` yields them: name, `isreg()` flag,
whether `tf.extractfile` returns a stream, and the bytes read. -/
inductive TarMembers where
  | nil : TarMembers
  | cons (tname : Name) (isReg : Bool) (extractOk : Bool) (content : Blob)
      (rest : TarMembers) : TarMembers
end

/-- `_is_zip_bytes` (unpack.py, lines 126-128): `data[:2] == b"PK"`. -/
def isZipBytes : Blob → Bool
  | .zipBad _ => true
  | .zip _ _ => true
  | _ => false

/-- `_is_tar_bytes` (unpack.py, lines 131-136): `tarfile.open` succeeds. -/
def isTarBytes : Blob → Bool
  | .tar _ _ => true
  | _ => false

/-- The underlying byte string of a blob. -/
def Blob.bytes : Blob → List Nat
  | .raw bs => bs
  | .zipBad bs => bs
  | .zip bs _ => bs
  | .tar bs _ => bs

/-- `f"{container_name}/{inner_name}" if container_name else inner_name`. -/
def virtualName (containerName innerName : Name) : Name :=
  if containerName = [] then innerName else containerName ++ '/' :: innerName

mutual
/-- `_explode_archive_bytes` (unpack.py, lines 139-189).  A `.error`
value models the exception propagated when `zipfile.ZipFile` rejects a
`PK`-signed stream. -/
def explodeArchiveBytes (containerName : Name) :
    Blob → Except Name (List (Name × Blob))
  | .zipBad _ => .error "BadZipFile".data
  | .zip _ ms => explodeZipMembers containerName ms
  | .tar _ ms => explodeTarMembers containerName ms
  | .raw bs =>
    .ok [(if containerName = [] then "blob".data else containerName, .raw bs)]

/-- The zip loop of `_explode_archive_bytes`: skip directory entries,
sanitize the member name, recurse only when the inner name has a raw
archive suffix and the inner bytes pass a zip or tar probe. -/
def explodeZipMembers (containerName : Name) :
    ZipMembers → Except Name (List (Name × Blob))
  | .nil => .ok []
  | .cons fname isDir content rest =>
    if isDir then explodeZipMembers containerName rest
    else
      let innerName := sanitizeMemberName fname
      if isRawArchiveName innerName && (isZipBytes content || isTarBytes content) then
        (explodeArchiveBytes (virtualName containerName innerName) content).bind
          (fun xs => (explodeZipMembers containerName rest).map
            (fun more => xs ++ more))
      else
        (explodeZipMembers containerName rest).map
          (fun more => (virtualName containerName innerName, content) :: more)

/-- The tar loop of `_explode_archive_bytes`: skip non-regular members
and members `extractfile` cannot open; same expansion policy. -/
def explodeTarMembers (containerName : Name) :
    TarMembers → Except Name (List (Name × Blob))
  | .nil => .ok []
  | .cons tname isReg extractOk content rest =>
    if isReg then
      if extractOk then
        let innerName := sanitizeMemberName tname
        if isRawArchiveName innerName && (isZipBytes content || isTarBytes content) then
          (explodeArchiveBytes (virtualName containerName innerName) content).bind
            (fun xs => (explodeTarMembers containerName rest).map
              (fun more => xs ++ more))
        else
          (explodeTarMembers containerName rest).map
            (fun more => (virtualName containerName innerName, content) :: more)
      else explodeTarMembers containerName rest
    else explodeTarMembers containerName rest
end

/-! ## The directory walker -/

mutual
/-- A filesystem subtree: regular files (with a readability flag - the
walker silently skips unreadable files) and directories. -/
inductive FSNode where
  | file (fname : Name) (readable : Bool) (content : Blob) : FSNode
  | dir (dname : Name) (children : FSList) : FSNode

/-- Directory listing order, as `os.walk` enumerates entries. -/
inductive FSList where
  | nil : FSList
  | cons (head : FSNode) (tail : FSList) : FSList
end

/-- The pruned directory names of `_walk_directory` (unpack.py, line 206). -/
def PRUNE_DIRS : List Name :=
  [".git".data, ".hg".data, ".svn".data, "__pycache__".data]

/-- `os.path.join(rel_dir, fn) if rel_dir else fn` with POSIX `/`. -/
def relJoin (relDir fn : Name) : Name :=
  if relDir = [] then fn else relDir ++ '/' :: fn

/-- The per-directory file loop of `_walk_directory` (unpack.py, lines
209-221): skip unreadable files, explode a file whose relative name has a
raw archive suffix, emit every other file directly. -/
def walkFilesOnly (relDir : Name) : FSList → Except Name (List (Name × Blob))
  | .nil => .ok []
  | .cons (.dir _ _) rest => walkFilesOnly relDir rest
  | .cons (.file fn readable content) rest =>
    if readable then
      if isRawArchiveName (relJoin relDir fn) then
        (explodeArchiveBytes (relJoin relDir fn) content).bind
          (fun xs => (walkFilesOnly relDir rest).map (fun more => xs ++ more))
      else
        (walkFilesOnly relDir rest).map
          (fun more => (relJoin relDir fn, content) :: more)
    else walkFilesOnly relDir rest

/-- The recursion of `os.walk` over subdirectories (top-down), pruning
`PRUNE_DIRS`: each subdirectory contributes its own files first, then its
subdirectories. -/
def walkSubdirs (relDir : Name) : FSList → Except Name (List (Name × Blob))
  | .nil => .ok []
  | .cons (.file _ _ _) rest => walkSubdirs relDir rest
  | .cons (.dir dn children) rest =>
    if dn ∈ PRUNE_DIRS then walkSubdirs relDir rest
    else
      (walkFilesOnly (relJoin relDir dn) children).bind (fun fs =>
        (walkSubdirs (relJoin relDir dn) children).bind (fun ds =>
          (walkSubdirs relDir rest).map (fun more => fs ++ ds ++ more)))

/-- `_walk_directory` (unpack.py, lines 192-222) on the children of the
walked root. -/
def walkDirectory (root : FSList) : Except Name (List (Name × Blob)) :=
  (walkFilesOnly [] root).bind (fun fs =>
    (walkSubdirs [] root).map (fun ds => fs ++ ds))

/-! ## C1: the archive expansion policy -/

/-- C1: a zip or tar member is recursively exploded only when its
sanitized name ends with a raw-archive suffix AND its bytes pass the zip
or tar probe; otherwise it is emitted as a single entry with its bytes
unchanged.  In the directory walker, a file whose relative name lacks a
raw-archive suffix - in particular any `*.xlsx` file - is emitted as a
single entry even when its bytes form a valid ZIP stream. -/
theorem c1_expansion_policy :
    (∀ (container fname : Name) (content : Blob) (rest : ZipMembers),
      (isRawArchiveName (sanitizeMemberName fname) &&
        (isZipBytes content || isTarBytes content)) = false →
      explodeZipMembers container (.cons fname false content rest) =
        (explodeZipMembers container rest).map
          (fun more =>
            (virtualName container (sanitizeMemberName fname), content) :: more)) ∧
    (∀ (container fname : Name) (content : Blob) (rest : ZipMembers),
      (isRawArchiveName (sanitizeMemberName fname) &&
        (isZipBytes content || isTarBytes content)) = true →
      explodeZipMembers container (.cons fname false content rest) =
        (explodeArchiveBytes (virtualName container (sanitizeMemberName fname))
            content).bind
          (fun xs => (explodeZipMembers container rest).map
            (fun more => xs ++ more))) ∧
    (∀ (container tname : Name) (content : Blob) (rest : TarMembers),
      (isRawArchiveName (sanitizeMemberName tname) &&
        (isZipBytes content || isTarBytes content)) = false →
      explodeTarMembers container (.cons tname true true content rest) =
        (explodeTarMembers container rest).map
          (fun more =>
            (virtualName container (sanitizeMemberName tname), content) :: more)) ∧
    (∀ (container tname : Name) (content : Blob) (rest : TarMembers),
      (isRawArchiveName (sanitizeMemberName tname) &&
        (isZipBytes content || isTarBytes content)) = true →
      explodeTarMembers container (.cons tname true true content rest) =
        (explodeArchiveBytes (virtualName container (sanitizeMemberName tname))
            content).bind
          (fun xs => (explodeTarMembers container rest).map
            (fun more => xs ++ more))) ∧
    (∀ (relDir fn : Name) (b : Blob) (rest : FSList),
      isRawArchiveName (relJoin relDir fn) = false →
      walkFilesOnly relDir (.cons (.file fn true b) rest) =
        (walkFilesOnly relDir rest).map
          (fun more => (relJoin relDir fn, b) :: more)) ∧
    (∀ b : Blob,
      walkDirectory (.cons (.file "table.xlsx".data true b) .nil) =
        .ok [("table.xlsx".data, b)]) := by
  refine ⟨?_, ?_, ?_, ?_, ?_, ?_⟩
  · intro container fname content rest h
    simp [explodeZipMembers, h]
  · intro container fname content rest h
    simp [explodeZipMembers, h]
  · intro container tname content rest h
    simp [explodeTarMembers, h]
  · intro container tname content rest h
    simp [explodeTarMembers, h]
  · intro relDir fn b rest h
    simp [walkFilesOnly, h]
  · intro b
    have hx : isRawArchiveName ['t', 'a', 'b', 'l', 'e', '.', 'x', 'l', 's', 'x'] =
        false := by decide
    simp [walkDirectory, walkFilesOnly, walkSubdirs, hx, relJoin, Except.bind,
      Except.map]

/-- Witness for C1 at concrete inputs: a member named `inner.xlsx` whose
bytes are a valid ZIP stream is not exploded inside a zip container, and
a `table.xlsx` in a walked directory stays a single entry. -/
theorem c1_expansion_policy_witness :
    explodeZipMembers "outer.zip".data
        (.cons "inner.xlsx".data false (Blob.zip [80, 75] .nil) .nil) =
      .ok [("outer.zip/inner.xlsx".data, Blob.zip [80, 75] .nil)] ∧
    walkDirectory (.cons (.file "table.xlsx".data true (Blob.zip [80, 75] .nil)) .nil) =
      .ok [("table.xlsx".data, Blob.zip [80, 75] .nil)] := by
  constructor
  · have h := c1_expansion_policy.1 "outer.zip".data "inner.xlsx".data
      (Blob.zip [80, 75] .nil) .nil (by decide)
    rw [h]
    have h0 : explodeZipMembers "outer.zip".data .nil = .ok [] := by
      simp [explodeZipMembers]
    rw [h0]
    have hv : virtualName "outer.zip".data
        (sanitizeMemberName "inner.xlsx".data) = "outer.zip/inner.xlsx".data := by
      decide
    simp [Except.map, hv]
  · exact c1_expansion_policy.2.2.2.2.2 (Blob.zip [80, 75] .nil)

/-! ## The HTTP download size guard (C7) -/

/-- Default of `MAX_HTTP_DOWNLOAD_BYTES` (unpack.py, lines 15-17):
`256 * 1024 * 1024` bytes, overridable through `ATT_MAX_DOWNLOAD_BYTES`;
the loop below takes the effective limit as a parameter. -/
def MAX_HTTP_DOWNLOAD_BYTES_DEFAULT : Nat := 256 * 1024 * 1024

/-- `chunk_size = 1024 * 1024` (unpack.py, line 361). -/
def HTTP_CHUNK_SIZE : Nat := 1024 * 1024

/-- The streaming loop of `_download_http_or_https` (unpack.py, lines
358-370): read fixed 1 MiB chunks, keep a running byte counter, raise a
size-limit `ValueError` as soon as the counter exceeds the limit, and
otherwise append the chunk to the buffer. -/
def streamWithSizeGuard (maxBytes : Nat) (body : List Nat) (total : Nat)
    (buf : List Nat) : Except Name (List Nat) :=
  if body.take HTTP_CHUNK_SIZE = [] then .ok buf
  else
    if maxBytes < total + (body.take HTTP_CHUNK_SIZE).length then
      .error "Remote file exceeds max size".data
    else
      streamWithSizeGuard maxBytes (body.drop HTTP_CHUNK_SIZE)
        (total + (body.take HTTP_CHUNK_SIZE).length)
        (buf ++ body.take HTTP_CHUNK_SIZE)
termination_by body.length
decreasing_by
  simp only [List.length_drop]
  have hb : body ≠ [] := by
    intro hnil
    subst hnil
    simp_all
  have h1 : 0 < body.length := List.length_pos.mpr hb
  have h2 : (0 : Nat) < HTTP_CHUNK_SIZE := by norm_num [HTTP_CHUNK_SIZE]
  omega

theorem stream_ok_of_le (maxBytes : Nat) :
    ∀ (n : Nat) (body : List Nat), body.length ≤ n → ∀ (total : Nat) (buf : List Nat),
      total + body.length ≤ maxBytes →
      streamWithSizeGuard maxBytes body total buf = .ok (buf ++ body) := by
  intro n
  induction n with
  | zero =>
    intro body hlen total buf _
    have hb : body = [] := List.length_eq_zero.mp (Nat.le_zero.mp hlen)
    subst hb
    rw [streamWithSizeGuard, List.take_nil, if_pos rfl, List.append_nil]
  | succ n ih =>
    intro body hlen total buf hle
    rw [streamWithSizeGuard]
    by_cases hc : body.take HTTP_CHUNK_SIZE = []
    · have hb : body = [] := by
        rcases List.take_eq_nil_iff.mp hc with h | h
        · exact absurd h (by norm_num [HTTP_CHUNK_SIZE])
        · exact h
      subst hb
      rw [List.take_nil, if_pos rfl, List.append_nil]
    · simp only [if_neg hc]
      have htl : (body.take HTTP_CHUNK_SIZE).length ≤ body.length :=
        (List.length_take HTTP_CHUNK_SIZE body) ▸ Nat.min_le_right _ _
      have hno : ¬ maxBytes < total + (body.take HTTP_CHUNK_SIZE).length := by
        omega
      rw [if_neg hno]
      have hb : body ≠ [] := by
        intro hnil
        subst hnil
        simp at hc
      have hpos : 0 < body.length := List.length_pos.mpr hb
      have hchunk : (0 : Nat) < HTTP_CHUNK_SIZE := by norm_num [HTTP_CHUNK_SIZE]
      have hsum : (body.take HTTP_CHUNK_SIZE).length +
          (body.drop HTTP_CHUNK_SIZE).length = body.length := by
        rw [List.length_take, List.length_drop]
        omega
      have hrec := ih (body.drop HTTP_CHUNK_SIZE)
        (by rw [List.length_drop]; omega)
        (total + (body.take HTTP_CHUNK_SIZE).length)
        (buf ++ body.take HTTP_CHUNK_SIZE)
        (by omega)
      rw [hrec, List.append_assoc, List.take_append_drop]

theorem stream_err_of_over (maxBytes : Nat) :
    ∀ (n : Nat) (body : List Nat), body.length ≤ n → ∀ (total : Nat) (buf : List Nat),
      total ≤ maxBytes → maxBytes < total + body.length →
      ∃ msg, streamWithSizeGuard maxBytes body total buf = .error msg := by
  intro n
  induction n with
  | zero =>
    intro body hlen total _ hlow hhigh
    have hb : body = [] := List.length_eq_zero.mp (Nat.le_zero.mp hlen)
    subst hb
    simp at hhigh
    omega
  | succ n ih =>
    intro body hlen total buf hlow hhigh
    rw [streamWithSizeGuard]
    by_cases hc : body.take HTTP_CHUNK_SIZE = []
    · have hb : body = [] := by
        rcases List.take_eq_nil_iff.mp hc with h | h
        · exact absurd h (by norm_num [HTTP_CHUNK_SIZE])
        · exact h
      subst hb
      simp at hhigh
      omega
    · simp only [if_neg hc]
      by_cases hover : maxBytes < total + (body.take HTTP_CHUNK_SIZE).length
      · rw [if_pos hover]
        exact ⟨_, rfl⟩
      · rw [if_neg hover]
        have hb : body ≠ [] := by
          intro hnil
          subst hnil
          simp at hc
        have hpos : 0 < body.length := List.length_pos.mpr hb
        have hchunk : (0 : Nat) < HTTP_CHUNK_SIZE := by norm_num [HTTP_CHUNK_SIZE]
        have hsum : (body.take HTTP_CHUNK_SIZE).length +
            (body.drop HTTP_CHUNK_SIZE).length = body.length := by
          rw [List.length_take, List.length_drop]
          omega
        exact ih (body.drop HTTP_CHUNK_SIZE)
          (by rw [List.length_drop]; omega)
          (total + (body.take HTTP_CHUNK_SIZE).length)
          (buf ++ body.take HTTP_CHUNK_SIZE)
          (by omega) (by omega)

/-- C7: the HTTP fetcher streams in fixed 1 MiB chunks with a running
byte counter; the default limit is 256 MiB (overridable); a body within
the limit is returned whole, and a body exceeding the limit produces a
size-limit error, so no partial file is ever emitted. -/
theorem c7_download_size_guard :
    MAX_HTTP_DOWNLOAD_BYTES_DEFAULT = 268435456 ∧
    HTTP_CHUNK_SIZE = 1048576 ∧
    (∀ (maxBytes : Nat) (body : List Nat),
      body.length ≤ maxBytes →
      streamWithSizeGuard maxBytes body 0 [] = .ok body) ∧
    (∀ (maxBytes : Nat) (body : List Nat),
      maxBytes < body.length →
      ∃ msg, streamWithSizeGuard maxBytes body 0 [] = .error msg) := by
  refine ⟨by norm_num [MAX_HTTP_DOWNLOAD_BYTES_DEFAULT],
    by norm_num [HTTP_CHUNK_SIZE], ?_, ?_⟩
  · intro maxBytes body hle
    have := stream_ok_of_le maxBytes body.length body le_rfl 0 [] (by omega)
    simpa using this
  · intro maxBytes body hover
    exact stream_err_of_over maxBytes body.length body le_rfl 0 []
      (Nat.zero_le _) (by omega)

/-- Witness for C7 at concrete inputs. -/
theorem c7_download_size_guard_witness :
    streamWithSizeGuard 3 [9, 9] 0 [] = .ok [9, 9] ∧
    ∃ msg, streamWithSizeGuard 1 [4, 5] 0 [] = .error msg := by
  exact ⟨c7_download_size_guard.2.2.1 3 [9, 9] (by norm_num),
    c7_download_size_guard.2.2.2 1 [4, 5] (by norm_num)⟩

/-! ## The text-content heuristic and processor routing (C10) -/

/-- Membership in the `textchars` table of `is_text_bytes` (utils.py,
line 14): the control whitespace bytes `{7,8,9,10,12,13,27}` plus every
byte in `[0x20, 0x100)`. -/
def isTextByteChar (b : Nat) : Bool :=
  b ∈ [7, 8, 9, 10, 12, 13, 27] || (32 ≤ b && b < 256)

/-- `is_text_bytes` (utils.py, lines 4-16).  The final comparison is
Python float arithmetic `len(nontext) / max(1, len(data)) < 0.05`; it is
modelled with exact rationals, with which it agrees for every input
shorter than about `10^16` bytes (the two sides can only differ when the
exact ratio lies within half an ulp of the binary double nearest 0.05). -/
def is_text_bytes (data : List Nat) : Bool :=
  if data = [] then true
  else if 0 ∈ data then false
  else
    decide ((((data.filter (fun b => !isTextByteChar b)).length : ℚ) /
      (max 1 data.length : ℚ)) < 5 / 100)

/-- `os.path` last-dot position helper for `splitext`. -/
def lastDotIdx : Name → Option Nat
  | [] => none
  | c :: rest =>
    match lastDotIdx rest with
    | some i => some (i + 1)
    | none => if c = '.' then some 0 else none

/-- The final path component (after the last `/`). -/
def basenameOf (p : Name) : Name := (splitSlash p).getLastD []

/-- The extension part of `os.path.splitext` (POSIX): the suffix from
the last dot of the final component, unless every character before that
dot is itself a dot (so `".bashrc"` has no extension). -/
def splitextExt (p : Name) : Name :=
  let base := basenameOf p
  match lastDotIdx base with
  | none => []
  | some d =>
    if (base.take d).any (fun c => decide (c ≠ '.')) then base.drop d else []

/-- `os.path.splitext(filename)[1].lower()` (core.py, line 28). -/
def extOf (filename : Name) : Name := lowerName (splitextExt filename)

/-- Python `dict.get` over an insertion-ordered association list with
unique keys. -/
def lookupName {α : Type} (reg : List (Name × α)) (k : Name) : Option α :=
  match reg.find? (fun kv => decide (kv.1 = k)) with
  | some kv => some kv.2
  | none => none

/-- `_route_processor` (core.py, lines 23-32): look up the lowercased
extension; when absent and the bytes look like text, fall back to the
`"__text__"` catch-all. -/
def routeProcessor {α : Type} (procs : List (Name × α)) (filename : Name)
    (data : List Nat) : Option α :=
  match lookupName procs (extOf filename) with
  | some p => some p
  | none => if is_text_bytes data then lookupName procs "__text__".data else none

/-- C10: `is_text_bytes` accepts the empty byte string, so a zero-byte
file whose extension has no registered processor is routed to the
`"__text__"` catch-all; in general the heuristic accepts exactly the
byte strings that are empty, or contain no NUL byte and whose non-text
byte proportion is below 5 percent. -/
theorem c10_text_heuristic_and_routing :
    is_text_bytes [] = true ∧
    (∀ data : List Nat, is_text_bytes data = true ↔
      data = [] ∨ (0 ∉ data ∧
        20 * (data.filter (fun b => !isTextByteChar b)).length < data.length)) ∧
    (∀ (α : Type) (procs : List (Name × α)) (filename : Name) (p : α),
      lookupName procs (extOf filename) = none →
      lookupName procs "__text__".data = some p →
      routeProcessor procs filename [] = some p) := by
  refine ⟨rfl, ?_, ?_⟩
  · intro data
    by_cases hnil : data = []
    · subst hnil
      simp [is_text_bytes]
    · by_cases hz : 0 ∈ data
      · simp [is_text_bytes, hnil, hz]
      · rw [is_text_bytes, if_neg hnil, if_neg hz, or_iff_right hnil,
          and_iff_right hz, decide_eq_true_eq]
        have hpos : 0 < data.length := List.length_pos.mpr hnil
        have h1le : 1 ≤ data.length := hpos
        have hmax : max (1 : ℚ) (data.length : ℚ) = (data.length : ℚ) :=
          max_eq_right (by exact_mod_cast h1le)
        rw [hmax]
        have hqpos : (0 : ℚ) < (data.length : ℚ) := by exact_mod_cast hpos
        rw [div_lt_iff₀ hqpos]
        constructor
        · intro h
          have h20 : ((20 * (data.filter (fun b => !isTextByteChar b)).length : ℕ) : ℚ)
              < (data.length : ℚ) := by
            push_cast
            nlinarith
          exact_mod_cast h20
        · intro h
          have h20 : ((20 * (data.filter (fun b => !isTextByteChar b)).length : ℕ) : ℚ)
              < (data.length : ℚ) := by exact_mod_cast h
          push_cast at h20
          nlinarith
  · intro α procs filename p h1 h2
    simp [routeProcessor, h1, h2, is_text_bytes]

/-- Witness for C10 at a concrete registry and filename. -/
theorem c10_text_heuristic_and_routing_witness :
    routeProcessor [("__text__".data, 42)] "data.bin".data [] = some 42 := by
  exact c10_text_heuristic_and_routing.2.2 Nat [("__text__".data, 42)]
    "data.bin".data 42 (by decide) (by decide)

/-! ## GitHub resolver and URL helpers (C9) -/

/-- Generalization of `splitSlash` to an arbitrary separator (Python
`str.split(sep)`). -/
def splitOnChar (sep : Char) : Name → List Name
  | [] => [[]]
  | c :: rest =>
    if c = sep then [] :: splitOnChar sep rest
    else (c :: (splitOnChar sep rest).headI) :: (splitOnChar sep rest).tail

/-- ASCII alphanumeric, the `[a-zA-Z0-9]` class of
`_GITHUB_OWNER_REPO_RE`. -/
def isAlnumAscii (c : Char) : Bool :=
  ('a' ≤ c && c ≤ 'z') || ('A' ≤ c && c ≤ 'Z') || ('0' ≤ c && c ≤ '9')

/-- The `[-a-zA-Z0-9_.]` class of `_GITHUB_OWNER_REPO_RE`. -/
def isOwnerRepoClass (c : Char) : Bool :=
  isAlnumAscii c || c = '-' || c = '_' || c = '.'

/-- One side of `_GITHUB_OWNER_REPO_RE` (unpack.py, lines 225-227),
i.e. `[a-zA-Z0-9][-a-zA-Z0-9_.]*[a-zA-Z0-9]?` (and for the repo side
additionally `(\.git)?`).  Because the optional tail atoms only use
characters already allowed by the starred class, the regex language is
exactly: an ASCII alphanumeric head followed by characters from the
class. -/
def matchesOwnerRepoPart : Name → Bool
  | [] => false
  | c :: rest => isAlnumAscii c && rest.all isOwnerRepoClass

/-- Full-string match of `_GITHUB_OWNER_REPO_RE`: two parts of the shape
above separated by exactly one `/` (the classes exclude `/`). -/
def matchesOwnerRepoRe (s : Name) : Bool :=
  match splitSlash s with
  | [owner, repo] => matchesOwnerRepoPart owner && matchesOwnerRepoPart repo
  | _ => false

/-- `dangerous_patterns` (unpack.py, line 236); the seventh entry is the
backtick character. -/
def DANGEROUS_PATTERNS : List Name :=
  [['-', '-'], ['.', '.'], [';'], ['|'], ['&'], ['$'],
   [Char.ofNat 96], ['\n'], ['\r']]

/-- `_validate_github_owner_repo` (unpack.py, lines 230-239): regex
check first, then the dangerous-substring scan; `.error` models the
raised `ValueError`. -/
def validateGithubOwnerRepo (ownerRepo : Name) : Except Name Unit :=
  if matchesOwnerRepoRe ownerRepo = false then
    .error ("Invalid GitHub owner/repo format: ".data ++ ownerRepo)
  else if DANGEROUS_PATTERNS.any (fun pat => decide (pat <:+: ownerRepo)) then
    .error ("Invalid characters in GitHub spec: ".data ++ ownerRepo)
  else .ok ()

/-- Path and query of a URL that starts with `https://github.com/`, as
`urllib.parse.urlparse` yields them: the fragment (from the first `#`)
is cut first, then the pre-fragment rest after the host is split at the
first `?`. -/
def githubPathQuery (url : Name) : Name × Name :=
  let rest := url.drop ("https://github.com".data.length)
  let noFrag := rest.takeWhile (fun c => c ≠ '#')
  (noFrag.takeWhile (fun c => c ≠ '?'),
    (noFrag.dropWhile (fun c => c ≠ '?')).drop 1)

/-- `[p for p in path.split("/") if p]`. -/
def nonemptyPathParts (path : Name) : List Name :=
  (splitSlash path).filter (fun p => decide (p ≠ []))

/-- `_is_github_repo_root_url` (unpack.py, lines 298-308). -/
def isGithubRepoRootUrl (url : Name) : Bool :=
  "https://github.com/".data.isPrefixOf url &&
    decide ((nonemptyPathParts (githubPathQuery url).1).length = 2)

/-- Python dict insertion: overwrite in place when the key exists,
append otherwise. -/
def dictInsert {α : Type} (d : List (Name × α)) (k : Name) (v : α) :
    List (Name × α) :=
  if d.any (fun kv => decide (kv.1 = k)) then
    d.map (fun kv => if kv.1 = k then (k, v) else kv)
  else d ++ [(k, v)]

/-- Python `dict.update`: apply `dictInsert` for each pair in order. -/
def dictUpdate {α : Type} (base : List (Name × α)) :
    List (Name × α) → List (Name × α)
  | [] => base
  | (k, v) :: rest => dictUpdate (dictInsert base k v) rest

/-- `urllib.parse.parse_qsl` restricted to what the source consults:
split the query on `&`, keep `k=v` pairs with a nonempty value, build a
dict (last value wins for a repeated key), as used for
`dict(parse_qsl(qs)).get("ref")`.  Percent-decoding of values is not
modelled; no claim depends on it. -/
def parseQslDict (qs : Name) : List (Name × Name) :=
  (splitOnChar '&' qs).foldl
    (fun acc part =>
      if part.contains '=' then
        let k := part.takeWhile (fun c => c ≠ '=')
        let v := (part.dropWhile (fun c => c ≠ '=')).drop 1
        if v = [] then acc else dictInsert acc k v
      else acc) []

/-- `dict(parse_qsl(qs)).get("ref")`. -/
def refOfQuery (qs : Name) : Option Name := lookupName (parseQslDict qs) "ref".data

/-- Python `s.strip("/")`. -/
def stripSlashes (s : Name) : Name :=
  ((s.dropWhile (fun c => c = '/')).reverse.dropWhile (fun c => c = '/')).reverse

/-- The inner `parse` of `_clone_github_to_temp` (unpack.py, lines
253-280): produce the clone URL and the optional ref, validating the
`owner/repo` component, or raise. -/
def parseGithubSpec (spec : Name) : Except Name (Name × Option Name) :=
  if "github://".data.isPrefixOf spec then
    let rest := spec.drop "github://".data.length
    let repoPath := rest.takeWhile (fun c => c ≠ '?')
    let qs := (rest.dropWhile (fun c => c ≠ '?')).drop 1
    let ownerRepo := stripSlashes repoPath
    (validateGithubOwnerRepo ownerRepo).map (fun _ =>
      ("https://github.com/".data ++ ownerRepo ++ ".git".data, refOfQuery qs))
  else if "https://github.com/".data.isPrefixOf spec then
    match nonemptyPathParts (githubPathQuery spec).1 with
    | [owner, repo] =>
      (validateGithubOwnerRepo (owner ++ '/' :: repo)).map (fun _ =>
        ("https://github.com/".data ++ owner ++ '/' ::
          (if ".git".data.isSuffixOf repo then repo else repo ++ ".git".data),
         refOfQuery (githubPathQuery spec).2))
    | _ => .error "Unsupported GitHub spec".data
  else .error "Unsupported GitHub spec".data

/-- `_clone_github_to_temp` (unpack.py, lines 242-294), with the
`git clone` subprocess abstracted as `cloneFn url ref` returning the
cloned tree (the children of the fresh temporary directory) or the
failure wrapped as `git clone failed`. -/
def cloneGithubToTemp (cloneFn : Name → Option Name → Except Name FSList)
    (spec : Name) : Except Name FSList :=
  match parseGithubSpec spec with
  | .error e => .error e
  | .ok (url, ref) =>
    match cloneFn url ref with
    | .error e => .error ("git clone failed: ".data ++ e)
    | .ok tree => .ok tree

/-! ## The unpack dispatcher (C3) -/

/-- What `Path(input).exists()` / `is_dir()` / `is_file()` can find. -/
inductive FSEntry where
  | dirEntry (children : FSList) : FSEntry
  | fileEntry (content : Blob) : FSEntry

/-- The ambient effects `unpack` relies on: filesystem lookup of the
input path, the `git clone` subprocess, and `_download_http_or_https`
(which returns the sanitized filename and the downloaded bytes, or
raises, e.g. the size-limit `ValueError` of C7). -/
structure UnpackEnv where
  fs : Name → Option FSEntry
  cloneFn : Name → Option Name → Except Name FSList
  download : Name → Except Name (Name × Blob)

/-- A custom prefix handler, `str -> list[(filename, bytes)]`. -/
abbrev UnpackHandler := Name → Except Name (List (Name × Blob))

/-- `pathlib.PurePosixPath(input).name`: the last component after
dropping empty and `"."` components; a trailing `".."` has no name. -/
def pathName (p : Name) : Name :=
  match ((splitSlash p).filter (fun s => decide (s ≠ [] ∧ s ≠ ['.']))).getLast? with
  | none => []
  | some l => if l = ['.', '.'] then [] else l

/-- `unpack` (unpack.py, lines 378-440).  `globalHandlers` models the
insertion-ordered `extra_unpack_handlers` registry and `extraHandlers`
the per-call `extra_handlers` dict (`[]` models `None`, over which
`dict.update` is the identity anyway). -/
def unpack (env : UnpackEnv) (globalHandlers extraHandlers : List (Name × UnpackHandler))
    (input : Name) : Except Name (List (Name × Blob)) :=
  match (dictUpdate globalHandlers extraHandlers).find?
      (fun kv => kv.1.isPrefixOf input) with
  | some kv => kv.2 input
  | none =>
    if "github://".data.isPrefixOf input || isGithubRepoRootUrl input then
      (cloneGithubToTemp env.cloneFn input).bind (fun tree => walkDirectory tree)
    else if "http://".data.isPrefixOf input || "https://".data.isPrefixOf input then
      match env.download input with
      | .error e => .error e
      | .ok (name, data) =>
        if isRawArchiveName name then explodeArchiveBytes name data
        else .ok [(name, data)]
    else
      match env.fs input with
      | some (.dirEntry children) => walkDirectory children
      | some (.fileEntry content) =>
        if isRawArchiveName (pathName input) then
          explodeArchiveBytes (pathName input) content
        else .ok [(pathName input, content)]
      | none => .error ("Unsupported or non-existent input: ".data ++ input)

/-! ## Dictionary lemmas (registration order and override precedence) -/

theorem lookupName_cons_self {α : Type} (k : Name) (v : α) (d : List (Name × α)) :
    lookupName ((k, v) :: d) k = some v := by
  simp [lookupName, List.find?]

theorem lookupName_cons_ne {α : Type} (k1 k : Name) (v1 : α) (d : List (Name × α))
    (h : k1 ≠ k) : lookupName ((k1, v1) :: d) k = lookupName d k := by
  simp [lookupName, List.find?, h]

theorem lookupName_eq_none {α : Type} (d : List (Name × α)) (k : Name)
    (h : ∀ kv ∈ d, kv.1 ≠ k) : lookupName d k = none := by
  induction d with
  | nil => rfl
  | cons kv rest ih =>
    obtain ⟨k1, v1⟩ := kv
    rw [lookupName_cons_ne k1 k v1 rest (h (k1, v1) (List.mem_cons_self _ _))]
    exact ih (fun kv hkv => h kv (List.mem_cons_of_mem _ hkv))

theorem lookupName_append {α : Type} (d1 d2 : List (Name × α)) (k : Name) :
    lookupName (d1 ++ d2) k =
      match lookupName d1 k with
      | some v => some v
      | none => lookupName d2 k := by
  induction d1 with
  | nil => simp [lookupName]
  | cons kv rest ih =>
    obtain ⟨k1, v1⟩ := kv
    by_cases h1 : k1 = k
    · subst h1
      rw [List.cons_append, lookupName_cons_self, lookupName_cons_self]
    · rw [List.cons_append, lookupName_cons_ne k1 k v1 _ h1,
        lookupName_cons_ne k1 k v1 _ h1, ih]

theorem lookupName_overwrite {α : Type} (d : List (Name × α)) (k : Name) (v : α)
    (hmem : d.any (fun kv => decide (kv.1 = k)) = true) :
    lookupName (d.map (fun kv => if kv.1 = k then (k, v) else kv)) k = some v := by
  induction d with
  | nil => simp at hmem
  | cons kv rest ih =>
    obtain ⟨k1, v1⟩ := kv
    by_cases h1 : k1 = k
    · subst h1
      simp [lookupName, List.find?]
    · simp only [List.any_cons, Bool.or_eq_true, decide_eq_true_eq] at hmem
      rcases hmem with h | h
      · exact absurd h h1
      · simp only [List.map_cons]
        have hif : (if (k1, v1).1 = k then (k, v) else (k1, v1)) = (k1, v1) := by
          simp [h1]
        rw [hif, lookupName_cons_ne k1 k v1 _ h1]
        exact ih h

theorem lookupName_overwrite_ne {α : Type} (d : List (Name × α)) (k k' : Name)
    (v : α) (h : k' ≠ k) :
    lookupName (d.map (fun kv => if kv.1 = k then (k, v) else kv)) k' =
      lookupName d k' := by
  induction d with
  | nil => rfl
  | cons kv rest ih =>
    obtain ⟨k1, v1⟩ := kv
    simp only [List.map_cons]
    by_cases h1 : k1 = k
    · subst h1
      have hif : (if (k1, v1).1 = k1 then (k1, v) else (k1, v1)) = (k1, v) := by
        simp
      rw [hif, lookupName_cons_ne k1 k' v _ (fun hq => h hq.symm),
        lookupName_cons_ne k1 k' v1 _ (fun hq => h hq.symm)]
      exact ih
    · have hif : (if (k1, v1).1 = k then (k, v) else (k1, v1)) = (k1, v1) := by
        simp [h1]
      rw [hif]
      by_cases h2 : k1 = k'
      · subst h2
        rw [lookupName_cons_self, lookupName_cons_self]
      · rw [lookupName_cons_ne k1 k' v1 _ h2, lookupName_cons_ne k1 k' v1 _ h2]
        exact ih

theorem lookupName_dictInsert_self {α : Type} (d : List (Name × α)) (k : Name)
    (v : α) : lookupName (dictInsert d k v) k = some v := by
  rw [dictInsert]
  by_cases hmem : d.any (fun kv => decide (kv.1 = k)) = true
  · rw [if_pos hmem]
    exact lookupName_overwrite d k v hmem
  · rw [if_neg hmem]
    have hnone : lookupName d k = none := by
      refine lookupName_eq_none d k (fun kv hkv heq => ?_)
      exact hmem (List.any_eq_true.mpr ⟨kv, hkv, by simp [heq]⟩)
    rw [lookupName_append, hnone, lookupName_cons_self]

theorem lookupName_dictInsert_ne {α : Type} (d : List (Name × α)) (k k' : Name)
    (v : α) (h : k' ≠ k) :
    lookupName (dictInsert d k v) k' = lookupName d k' := by
  rw [dictInsert]
  by_cases hmem : d.any (fun kv => decide (kv.1 = k)) = true
  · rw [if_pos hmem]
    exact lookupName_overwrite_ne d k k' v h
  · rw [if_neg hmem, lookupName_append]
    cases hl : lookupName d k' with
    | some v' => rfl
    | none => rw [lookupName_cons_ne k k' v _ (fun hq => h hq.symm)]; rfl

theorem keys_dictInsert_nodup {α : Type} (d : List (Name × α)) (k : Name) (v : α)
    (h : (d.map Prod.fst).Nodup) :
    ((dictInsert d k v).map Prod.fst).Nodup := by
  rw [dictInsert]
  by_cases hmem : d.any (fun kv => decide (kv.1 = k)) = true
  · rw [if_pos hmem, List.map_map]
    have hcongr : d.map (Prod.fst ∘ fun kv => if kv.1 = k then (k, v) else kv) =
        d.map Prod.fst := by
      refine List.map_congr_left (fun kv _ => ?_)
      by_cases h1 : kv.1 = k
      · simp [h1]
      · simp [h1]
    rw [hcongr]
    exact h
  · rw [if_neg hmem, List.map_append]
    rw [List.nodup_append]
    refine ⟨h, List.nodup_singleton k, fun a ha hb => ?_⟩
    have hak : a = k := by simpa using hb
    subst hak
    obtain ⟨kv, hkv, hfst⟩ := List.mem_map.mp ha
    exact hmem (List.any_eq_true.mpr ⟨kv, hkv, by simp [hfst]⟩)

theorem lookupName_dictUpdate {α : Type} (ex : List (Name × α)) :
    ∀ (base : List (Name × α)) (k : Name),
      (base.map Prod.fst).Nodup → (ex.map Prod.fst).Nodup →
      lookupName (dictUpdate base ex) k =
        match lookupName ex k with
        | some v => some v
        | none => lookupName base k := by
  induction ex with
  | nil =>
    intro base k _ _
    rw [dictUpdate]
    rfl
  | cons kv rest ih =>
    intro base k hb he
    obtain ⟨k1, v1⟩ := kv
    simp only [List.map_cons, List.nodup_cons] at he
    have hb' : ((dictInsert base k1 v1).map Prod.fst).Nodup :=
      keys_dictInsert_nodup base k1 v1 hb
    rw [dictUpdate, ih (dictInsert base k1 v1) k hb' he.2]
    by_cases hk : k = k1
    · subst hk
      have hnone : lookupName rest k = none := by
        refine lookupName_eq_none rest k (fun kv hkv heq => ?_)
        exact he.1 (heq ▸ List.mem_map.mpr ⟨kv, hkv, rfl⟩)
      rw [hnone, lookupName_cons_self, lookupName_dictInsert_self]
    · rw [lookupName_cons_ne k1 k v1 rest (fun hq => hk hq.symm),
        lookupName_dictInsert_ne base k1 k v1 hk]

/-! ## C3: the dispatch order of `unpack` -/

/-- C3: `unpack` classifies its input in this fixed order: (1) the first
custom prefix handler (in registry order, call-time overrides replacing
global entries on key collision) whose prefix is a string-prefix of the
input handles it alone and the environment (filesystem, git, HTTP) is
never consulted; (2) otherwise GitHub repo-root recognition leads to a
clone followed by a directory walk; (3) otherwise an `http(s)://` input
is downloaded, exploded when the resolved name has a raw-archive suffix;
(4) otherwise an existing local directory is walked; (5) otherwise an
existing local regular file is exploded when its name has a raw-archive
suffix, else returned as a single entry; and (6) when nothing matches,
`unpack` raises an error naming the unresolved input. -/
theorem c3_unpack_dispatch_order :
    (∀ (env env' : UnpackEnv) (gh ex : List (Name × UnpackHandler))
        (input p : Name) (h : UnpackHandler),
      (dictUpdate gh ex).find? (fun kv => kv.1.isPrefixOf input) = some (p, h) →
      unpack env gh ex input = h input ∧
      unpack env gh ex input = unpack env' gh ex input) ∧
    (∀ {α : Type} (base ex : List (Name × α)) (k : Name),
      (base.map Prod.fst).Nodup → (ex.map Prod.fst).Nodup →
      lookupName (dictUpdate base ex) k =
        match lookupName ex k with
        | some v => some v
        | none => lookupName base k) ∧
    (∀ (env : UnpackEnv) (gh ex : List (Name × UnpackHandler)) (input : Name),
      (dictUpdate gh ex).find? (fun kv => kv.1.isPrefixOf input) = none →
      ("github://".data.isPrefixOf input || isGithubRepoRootUrl input) = true →
      unpack env gh ex input =
        (cloneGithubToTemp env.cloneFn input).bind (fun tree => walkDirectory tree)) ∧
    (∀ (env : UnpackEnv) (gh ex : List (Name × UnpackHandler)) (input : Name),
      (dictUpdate gh ex).find? (fun kv => kv.1.isPrefixOf input) = none →
      ("github://".data.isPrefixOf input || isGithubRepoRootUrl input) = false →
      ("http://".data.isPrefixOf input || "https://".data.isPrefixOf input) = true →
      unpack env gh ex input =
        match env.download input with
        | .error e => .error e
        | .ok (name, data) =>
          if isRawArchiveName name then explodeArchiveBytes name data
          else .ok [(name, data)]) ∧
    (∀ (env : UnpackEnv) (gh ex : List (Name × UnpackHandler)) (input : Name)
        (children : FSList),
      (dictUpdate gh ex).find? (fun kv => kv.1.isPrefixOf input) = none →
      ("github://".data.isPrefixOf input || isGithubRepoRootUrl input) = false →
      ("http://".data.isPrefixOf input || "https://".data.isPrefixOf input) = false →
      env.fs input = some (.dirEntry children) →
      unpack env gh ex input = walkDirectory children) ∧
    (∀ (env : UnpackEnv) (gh ex : List (Name × UnpackHandler)) (input : Name)
        (content : Blob),
      (dictUpdate gh ex).find? (fun kv => kv.1.isPrefixOf input) = none →
      ("github://".data.isPrefixOf input || isGithubRepoRootUrl input) = false →
      ("http://".data.isPrefixOf input || "https://".data.isPrefixOf input) = false →
      env.fs input = some (.fileEntry content) →
      unpack env gh ex input =
        if isRawArchiveName (pathName input) then
          explodeArchiveBytes (pathName input) content
        else .ok [(pathName input, content)]) ∧
    (∀ (env : UnpackEnv) (gh ex : List (Name × UnpackHandler)) (input : Name),
      (dictUpdate gh ex).find? (fun kv => kv.1.isPrefixOf input) = none →
      ("github://".data.isPrefixOf input || isGithubRepoRootUrl input) = false →
      ("http://".data.isPrefixOf input || "https://".data.isPrefixOf input) = false →
      env.fs input = none →
      unpack env gh ex input =
        .error ("Unsupported or non-existent input: ".data ++ input)) := by
  refine ⟨?_, ?_, ?_, ?_, ?_, ?_, ?_⟩
  · intro env env' gh ex input p h hfind
    constructor
    · rw [unpack, hfind]
    · rw [unpack, hfind, unpack, hfind]
  · intro α base ex k hb he
    exact lookupName_dictUpdate ex base k hb he
  · intro env gh ex input hfind hcond
    rw [unpack, hfind]
    simp only [hcond, if_true]
  · intro env gh ex input hfind hgh hhttp
    rw [unpack, hfind]
    simp only [hgh, hhttp, Bool.false_eq_true, if_false, if_true]
  · intro env gh ex input children hfind hgh hhttp hfs
    rw [unpack, hfind]
    simp only [hgh, hhttp, Bool.false_eq_true, if_false, hfs]
  · intro env gh ex input content hfind hgh hhttp hfs
    rw [unpack, hfind]
    simp only [hgh, hhttp, Bool.false_eq_true, if_false, hfs]
  · intro env gh ex input hfind hgh hhttp hfs
    rw [unpack, hfind]
    simp only [hgh, hhttp, Bool.false_eq_true, if_false, hfs]

/-- An environment with nothing in it, for the concrete witnesses. -/
def emptyUnpackEnv : UnpackEnv where
  fs := fun _ => none
  cloneFn := fun _ _ => .error []
  download := fun _ => .error []

/-- Witness for C3: a `dropbox://` handler handles its input alone, and
an unresolvable input produces the hard failure naming it. -/
theorem c3_unpack_dispatch_order_witness :
    unpack emptyUnpackEnv
      [("dropbox://".data, fun _ => Except.ok ([("x".data, Blob.raw [1])]))] []
      "dropbox://file.txt".data = .ok [("x".data, Blob.raw [1])] ∧
    unpack emptyUnpackEnv [] [] "nosuch".data =
      .error ("Unsupported or non-existent input: ".data ++ "nosuch".data) := by
  constructor
  · exact (c3_unpack_dispatch_order.1 emptyUnpackEnv emptyUnpackEnv
      [("dropbox://".data, fun _ => Except.ok ([("x".data, Blob.raw [1])]))] []
      "dropbox://file.txt".data "dropbox://".data
      (fun _ => Except.ok ([("x".data, Blob.raw [1])])) rfl).1
  · exact c3_unpack_dispatch_order.2.2.2.2.2.2 emptyUnpackEnv [] [] "nosuch".data
      rfl rfl rfl rfl

/-! ## C9: the GitHub resolver -/

theorem github_scheme_disjoint (url : Name)
    (h : "https://github.com/".data.isPrefixOf url = true) :
    "github://".data.isPrefixOf url = false := by
  obtain ⟨t, ht⟩ := List.isPrefixOf_iff_prefix.mp h
  subst ht
  have h2 : "https://github.com/".data = 'h' :: "ttps://github.com/".data := rfl
  have h1 : "github://".data = 'g' :: "ithub://".data := rfl
  rw [h2, List.cons_append, h1]
  simp [List.isPrefixOf]

theorem https_prefix_of_github_prefix (url : Name)
    (h : "https://github.com/".data.isPrefixOf url = true) :
    "https://".data.isPrefixOf url = true := by
  have hp : "https://".data <+: "https://github.com/".data := by decide
  exact List.isPrefixOf_iff_prefix.mpr
    (hp.trans (List.isPrefixOf_iff_prefix.mp h))

/-- C9: (i) an `https://github.com` URL whose path has exactly two
segments is dispatched to the clone-then-walk branch; (ii) a deeper
`github.com` path is not treated as a repository and falls through to the
generic HTTP fetcher; (iii) for every `https://github.com` spec with two
path segments whose `owner/repo` string fails the strict pattern or
contains a dangerous substring, the resolver raises a validation error
and the result does not depend on the clone subprocess at all (no clone
is attempted). -/
theorem c9_github_repo_root_only :
    (∀ (env : UnpackEnv) (gh ex : List (Name × UnpackHandler)) (url : Name),
      (dictUpdate gh ex).find? (fun kv => kv.1.isPrefixOf url) = none →
      isGithubRepoRootUrl url = true →
      unpack env gh ex url =
        (cloneGithubToTemp env.cloneFn url).bind (fun tree => walkDirectory tree)) ∧
    (∀ (env : UnpackEnv) (gh ex : List (Name × UnpackHandler)) (url : Name),
      (dictUpdate gh ex).find? (fun kv => kv.1.isPrefixOf url) = none →
      "https://github.com/".data.isPrefixOf url = true →
      isGithubRepoRootUrl url = false →
      unpack env gh ex url =
        match env.download url with
        | .error e => .error e
        | .ok (name, data) =>
          if isRawArchiveName name then explodeArchiveBytes name data
          else .ok [(name, data)]) ∧
    (∀ (spec owner repo : Name),
      "https://github.com/".data.isPrefixOf spec = true →
      nonemptyPathParts (githubPathQuery spec).1 = [owner, repo] →
      (matchesOwnerRepoRe (owner ++ '/' :: repo) = false ∨
        DANGEROUS_PATTERNS.any
          (fun pat => decide (pat <:+: (owner ++ '/' :: repo))) = true) →
      ∃ e, parseGithubSpec spec = .error e ∧
        ∀ cloneFn, cloneGithubToTemp cloneFn spec = .error e) := by
  refine ⟨?_, ?_, ?_⟩
  · intro env gh ex url hfind hroot
    rw [unpack, hfind]
    simp only [hroot, Bool.or_true, if_true]
  · intro env gh ex url hfind hpre hroot
    have hgh : "github://".data.isPrefixOf url = false :=
      github_scheme_disjoint url hpre
    have hhttps : "https://".data.isPrefixOf url = true :=
      https_prefix_of_github_prefix url hpre
    rw [unpack, hfind]
    simp only [hgh, hroot, Bool.or_self, Bool.false_eq_true, if_false,
      hhttps, Bool.or_true, if_true]
  · intro spec owner repo hpre hsplit hbad
    have hgh : "github://".data.isPrefixOf spec = false :=
      github_scheme_disjoint spec hpre
    have hval : ∃ e, validateGithubOwnerRepo (owner ++ '/' :: repo) = .error e := by
      rw [validateGithubOwnerRepo]
      by_cases hre : matchesOwnerRepoRe (owner ++ '/' :: repo) = false
      · rw [if_pos hre]
        exact ⟨_, rfl⟩
      · rw [if_neg hre]
        rcases hbad with h | h
        · exact absurd h hre
        · rw [if_pos h]
          exact ⟨_, rfl⟩
    obtain ⟨e, he⟩ := hval
    have hparse : parseGithubSpec spec = .error e := by
      rw [parseGithubSpec]
      rw [if_neg (by simp [hgh])]
      rw [if_pos hpre]
      rw [hsplit]
      simp only [he, Except.map]
    refine ⟨e, hparse, fun cloneFn => ?_⟩
    rw [cloneGithubToTemp, hparse]

/-- Witness for C9: the spec `https://github.com/a/b..c` passes the
two-segment shape but contains the dangerous `..` substring, so the
resolver fails before any clone; and a deeper `github.com` path goes to
the HTTP fetcher. -/
theorem c9_github_repo_root_only_witness :
    (∃ e, parseGithubSpec "https://github.com/a/b..c".data = .error e ∧
      ∀ cloneFn, cloneGithubToTemp cloneFn "https://github.com/a/b..c".data =
        .error e) ∧
    unpack emptyUnpackEnv [] [] "https://github.com/a/b/c".data =
      .error [] := by
  constructor
  · exact c9_github_repo_root_only.2.2 "https://github.com/a/b..c".data
      "a".data "b..c".data (by decide) (by decide) (Or.inr (by decide))
  · have h := c9_github_repo_root_only.2.1 emptyUnpackEnv [] []
      "https://github.com/a/b/c".data rfl (by decide) (by decide)
    rw [h]
    rfl

/-! ## The artifact model (core.py) -/

/-- An image record, as produced by page-rendering processors. -/
structure ImageRec where
  iname : Name
  mimetype : Name
  ibytes : List Nat
  page : Int

/-- The `flags` dict of an artifact, restricted to the keys the core
layer reads or writes; `none` models an absent key. -/
structure Flags where
  source : Option Name := none
  error : Option Name := none
  note : Option Name := none
  via : Option Name := none

/-- An artifact dict as a processor may return it; `none` models an
absent key, which `_normalize_artifact` fills in. -/
structure Artifact where
  text : Option Name := none
  images : Option (List ImageRec) := none
  audio : Option (List Unit) := none
  video : Option (List Unit) := none
  flags : Option Flags := none

/-- `dict.setdefault` on a single optional field. -/
def setdefaultO {α : Type} (o : Option α) (d : α) : Option α :=
  match o with
  | some v => some v
  | none => some d

/-- `_error_artifact` (core.py, lines 35-43). -/
def errorArtifact (source error : Name) : Artifact :=
  { text := some [], images := some [], audio := some [], video := some [],
    flags := some { source := some source, error := some error } }

/-- `_empty_artifact` (core.py, lines 46-54). -/
def emptyArtifact (source note : Name) : Artifact :=
  { text := some [], images := some [], audio := some [], video := some [],
    flags := some { source := some source, note := some note } }

/-- `_normalize_artifact` (core.py, lines 193-201): `setdefault` every
content key, `setdefault` the `flags` dict, then `setdefault` its
`source` key to the originating virtual name. -/
def normalizeArtifact (artifact : Artifact) (source : Name) : Artifact :=
  { text := setdefaultO artifact.text []
    images := setdefaultO artifact.images []
    audio := setdefaultO artifact.audio []
    video := setdefaultO artifact.video []
    flags := some
      (let f := artifact.flags.getD {}
       { f with source := setdefaultO f.source source }) }

/-- The dependency-missing indicator substrings of
`_has_meaningful_error` (core.py, lines 62-69). -/
def DEP_INDICATORS : List Name :=
  ["requires".data, "not installed".data, "unavailable".data,
   "ImportError".data, "ModuleNotFoundError".data, "no module".data]

/-- `_has_meaningful_error` (core.py, lines 57-70): case-insensitive
substring match of any indicator against `flags.get("error", "")`. -/
def hasMeaningfulError (a : Artifact) : Bool :=
  DEP_INDICATORS.any (fun ind =>
    decide (lowerName ind <:+: lowerName (((a.flags.getD {}).error).getD [])))

/-- Truthiness of `result.get("flags", {}).get("error")`. -/
def flagsErrorTruthy (a : Artifact) : Bool :=
  decide ((((a.flags.getD {}).error).getD []) ≠ [])

/-! ## The DSL parser (dsl.py) -/

/-- A parsed DSL option value.  Python floats are kept symbolic (the
`.float` constructor stores the literal); no claim depends on float
arithmetic. -/
inductive DslValue where
  | bool (b : Bool) : DslValue
  | int (i : Int) : DslValue
  | float (raw : Name) : DslValue
  | range (lo hi : Int) : DslValue
  | str (s : Name) : DslValue

/-- Python `str.strip()`. -/
def pyStrip (s : Name) : Name :=
  ((s.dropWhile Char.isWhitespace).reverse.dropWhile Char.isWhitespace).reverse

/-- Python `str.isdigit` (ASCII digits). -/
def isDigitName (s : Name) : Bool :=
  decide (s ≠ []) && s.all Char.isDigit

/-- Decimal digits to a number. -/
def natOfDigits (s : Name) : Nat :=
  s.foldl (fun acc c => acc * 10 + (c.toNat - '0'.toNat)) 0

/-- The `^(\d+)\s*-\s*(\d+)$` range form of `_parse_value`. -/
def parseRange (s : Name) : Option (Int × Int) :=
  let d1 := s.takeWhile Char.isDigit
  let r1 := s.dropWhile Char.isDigit
  if d1 = [] then none
  else
    match r1.dropWhile Char.isWhitespace with
    | '-' :: r3 =>
      let r4 := r3.dropWhile Char.isWhitespace
      let d2 := r4.takeWhile Char.isDigit
      let r5 := r4.dropWhile Char.isDigit
      if d2 = [] then none
      else if r5 = [] then some ((natOfDigits d1 : Int), (natOfDigits d2 : Int))
      else none
    | _ => none

/-- Whether `float(value)` succeeds, for values containing a dot:
optional sign, digits around one dot, at least one digit.  Exponent
forms (`1.5e3`) are not modelled; no claim depends on them. -/
def looksLikeFloat (s : Name) : Bool :=
  let t := if s.head? = some '-' || s.head? = some '+' then s.drop 1 else s
  let intPart := t.takeWhile Char.isDigit
  match t.dropWhile Char.isDigit with
  | '.' :: frac =>
    (decide (intPart ≠ []) || decide (frac ≠ [])) && frac.all Char.isDigit
  | _ => false

/-- `_parse_value` (dsl.py, lines 50-83): strip, unquote, booleans,
integers, floats (only when a dot is present), ranges, else raw
string. -/
def parseValue (value : Name) : DslValue :=
  let value := pyStrip value
  if (value.head? = some '"' ∧ value.getLast? = some '"') ∨
     (value.head? = some (Char.ofNat 39) ∧ value.getLast? = some (Char.ofNat 39)) then
    .str ((value.drop 1).dropLast)
  else if lowerName value ∈ ["true".data, "yes".data, "on".data, "1".data] then
    .bool true
  else if lowerName value ∈ ["false".data, "no".data, "off".data, "0".data] then
    .bool false
  else if isDigitName value then .int (natOfDigits value)
  else if value.head? = some '-' ∧ isDigitName (value.drop 1) then
    .int (-(natOfDigits (value.drop 1) : Int))
  else if '.' ∈ value ∧ looksLikeFloat value then .float value
  else
    match parseRange value with
    | some (lo, hi) => .range lo hi
    | none => .str value

/-- An entry of `KEY_ALIASES` (dsl.py, lines 27-47). -/
inductive AliasTarget where
  | pair (startKey endKey : Name) : AliasTarget
  | single (key : Name) : AliasTarget

/-- `KEY_ALIASES` (dsl.py, lines 27-47). -/
def KEY_ALIASES : List (Name × AliasTarget) :=
  [("pages".data, .pair "page_start".data "page_end".data),
   ("page".data, .pair "page_start".data "page_end".data),
   ("password".data, .single "password".data),
   ("pw".data, .single "password".data),
   ("dpi".data, .single "images_dpi".data),
   ("images".data, .single "render_images".data),
   ("render".data, .single "render_images".data),
   ("sheet".data, .single "sheet".data),
   ("rows".data, .single "max_rows".data),
   ("max_rows".data, .single "max_rows".data),
   ("branch".data, .single "ref".data),
   ("ref".data, .single "ref".data),
   ("tag".data, .single "ref".data),
   ("start".data, .single "page_start".data),
   ("end".data, .single "page_end".data)]

/-- `key.lower().replace("-", "_").replace(" ", "_")`. -/
def normalizeKeyName (k : Name) : Name :=
  (lowerName k).map (fun c => if c = '-' then '_' else if c = ' ' then '_' else c)

/-- Python `isinstance(value, int)` (true for `bool` as well) together
with its integer value. -/
def asIntValue : DslValue → Option Int
  | .int i => some i
  | .bool b => some (if b then 1 else 0)
  | _ => none

/-- `_expand_option` (dsl.py, lines 86-111). -/
def expandOption (key : Name) (value : DslValue) : List (Name × DslValue) :=
  let keyLower := normalizeKeyName key
  match lookupName KEY_ALIASES keyLower with
  | some (.pair startKey endKey) =>
    match value with
    | .range lo hi => [(startKey, .int (lo - 1)), (endKey, .int hi)]
    | _ =>
      match asIntValue value with
      | some v => [(startKey, .int (v - 1)), (endKey, value)]
      | none => []
  | some (.single k) => [(k, value)]
  | none => [(keyLower, value)]

/-- `_split_options` (dsl.py, lines 190-215): split on commas outside
quotes; the current chunk is accumulated reversed and flushed on each
comma (even when empty) and at the end (only when nonempty). -/
def splitOptionsGo : Name → Name → Option Char → List Name → List Name
  | [], current, _, parts =>
    if current = [] then parts else parts ++ [current.reverse]
  | c :: rest, current, quoteChar, parts =>
    match quoteChar with
    | none =>
      if c = '"' || c = Char.ofNat 39 then
        splitOptionsGo rest (c :: current) (some c) parts
      else if c = ',' then splitOptionsGo rest [] none (parts ++ [current.reverse])
      else splitOptionsGo rest (c :: current) none parts
    | some q =>
      if c = q then splitOptionsGo rest (c :: current) none parts
      else splitOptionsGo rest (c :: current) (some q) parts

def splitOptions (s : Name) : List Name := splitOptionsGo s [] none []

/-- The option loop of `parse_dsl` (dsl.py, lines 167-185): strip each
part, skip empty ones, split at the first `:`, parse and expand, and
`dict.update` the accumulated options. -/
def parseOptionParts (parts : List Name) : List (Name × DslValue) :=
  parts.foldl
    (fun options part =>
      let part := pyStrip part
      if part = [] then options
      else if ':' ∈ part then
        let key := pyStrip (part.takeWhile (fun c => c ≠ ':'))
        let value := pyStrip ((part.dropWhile (fun c => c ≠ ':')).drop 1)
        dictUpdate options (expandOption key (parseValue value))
      else options) []

/-- The backward bracket scan of `parse_dsl` (dsl.py, lines 144-154),
over the reversed input; `i` is the real index of the character under
examination, returned when a `[` brings the depth back to zero. -/
def scanBracketBack : Name → Int → Int → Option Int
  | [], _, _ => none
  | c :: rest, depth, i =>
    if c = ']' then scanBracketBack rest (depth + 1) (i - 1)
    else if c = '[' then
      if depth - 1 = 0 then some i else scanBracketBack rest (depth - 1) (i - 1)
    else scanBracketBack rest depth (i - 1)

/-- `parse_dsl` (dsl.py, lines 114-187). -/
def parseDsl (input : Name) : Name × List (Name × DslValue) :=
  let input := pyStrip input
  if ¬ ('[' ∈ input) ∨ input.getLast? ≠ some ']' then (input, [])
  else
    match scanBracketBack input.reverse 0 ((input.length : Int) - 1) with
    | none => (input, [])
    | some i =>
      let path := pyStrip (input.take i.toNat)
      let optionsStr := pyStrip ((input.drop (i.toNat + 1)).dropLast)
      if optionsStr = [] then (path, [])
      else (path, parseOptionParts (splitOptions optionsStr))

/-! ## Source-specific option rewriting (core.py, lines 204-219) -/

/-- Python `str(value)` for the DSL values (floats keep their literal;
ranges print as tuples). -/
def strOfDslValue : DslValue → Name
  | .bool b => if b then "True".data else "False".data
  | .int i =>
    if i < 0 then '-' :: Nat.toDigits 10 i.natAbs else Nat.toDigits 10 i.toNat
  | .float raw => raw
  | .range lo hi =>
    '(' :: (if lo < 0 then '-' :: Nat.toDigits 10 lo.natAbs
            else Nat.toDigits 10 lo.toNat) ++
      ", ".data ++ (if hi < 0 then '-' :: Nat.toDigits 10 hi.natAbs
            else Nat.toDigits 10 hi.toNat) ++ [')']
  | .str s => s

/-- Python truthiness of a DSL value (`if ref:`).  A float is falsy
exactly when it denotes zero, i.e. (in the modelled dot grammar) when
its literal has no nonzero digit. -/
def dslTruthy : DslValue → Bool
  | .bool b => b
  | .int i => decide (i ≠ 0)
  | .float raw => raw.any (fun c => '1' ≤ c && c ≤ '9')
  | .range _ _ => true
  | .str s => decide (s ≠ [])

/-- `_apply_source_options` (core.py, lines 204-219): for GitHub-ish
inputs, pop `ref` from the options and append it as a query parameter
when truthy. -/
def applySourceOptions (input : Name) (options : List (Name × DslValue)) :
    Name × List (Name × DslValue) :=
  if ("github://".data.isPrefixOf input ||
      ("https://github.com/".data.isPrefixOf input &&
        decide (input.count '/' ≤ 4))) = true then
    match lookupName options "ref".data with
    | none => (input, options)
    | some v =>
      let options' := options.filter (fun kv => decide (kv.1 ≠ "ref".data))
      if dslTruthy v then
        ((input ++ (if '?' ∈ input then '&' else '?') :: "ref=".data ++
          strOfDslValue v), options')
      else (input, options')
  else (input, options)

/-! ## The orchestrator (core.py) -/

/-- A registered processor: `(data, filename=filename, **options) ->
artifact dict`, which may also raise (`.error`). -/
abbrev ProcFn := Blob → Name → List (Name × DslValue) → Except Name Artifact

/-- The possible outcomes of `service.process_via_service`: a result
dict, a raised `ServiceError` (carrying `e.message`), or any other
raised exception (e.g. the `ImportError` when `httpx` is missing). -/
inductive ServiceOutcome where
  | ok (a : Artifact) : ServiceOutcome
  | serviceError (msg : Name) : ServiceOutcome
  | otherExn (msg : Name) : ServiceOutcome

/-- The possible outcomes of `service.unpack_via_service`. -/
inductive ServiceUnpackOutcome where
  | ok (pairs : List (Name × Blob)) : ServiceUnpackOutcome
  | serviceError (msg : Name) : ServiceUnpackOutcome
  | importError (msg : Name) : ServiceUnpackOutcome
  | otherExn (msg : Name) : ServiceUnpackOutcome

/-- Everything `att`/`_process_single` depend on: the unpack
environment and prefix-handler registry, the processor registry, the
remote service, and the configured credential and preference
(`get_api_key(None)` / `get_prefer(None)`). -/
structure CoreEnv where
  ue : UnpackEnv
  handlers : List (Name × UnpackHandler)
  processors : List (Name × ProcFn)
  service : Name → Blob → List (Name × DslValue) → ServiceOutcome
  serviceUnpackFn : Name → ServiceUnpackOutcome
  cfgApiKey : Option Name
  cfgPrefer : Name

/-- `get_api_key(override)`. -/
def getApiKeyR (env : CoreEnv) (ov : Option Name) : Option Name :=
  match ov with
  | some k => some k
  | none => env.cfgApiKey

/-- `get_prefer(override)`. -/
def getPreferR (env : CoreEnv) (ov : Option Name) : Name :=
  match ov with
  | some p => p
  | none => env.cfgPrefer

/-- Python truthiness of the key (`if key:`): present and nonempty. -/
def keyTruthy : Option Name → Bool
  | none => false
  | some s => decide (s ≠ [])

/-- `result.setdefault("flags", {}); result["flags"]["via"] =
"service"` (core.py, lines 186-187). -/
def setViaService (a : Artifact) : Artifact :=
  { a with flags := some { a.flags.getD {} with via := some "service".data } }

/-- `_process_via_service` (core.py, lines 173-190): a `ServiceError`
becomes an error artifact, any other exception propagates. -/
def processViaService (env : CoreEnv) (filename : Name) (data : Blob)
    (options : List (Name × DslValue)) : Except Name Artifact :=
  match env.service filename data options with
  | .ok a => .ok (setViaService a)
  | .serviceError m => .ok (errorArtifact filename ("service error: ".data ++ m))
  | .otherExn m => .error m

/-- The service fallback step of the default `local` mode (core.py,
lines 159-163): `_process_via_service` wrapped in `except Exception`,
so every outcome is an artifact. -/
def localModeServiceStep (env : CoreEnv) (filename : Name) (data : Blob)
    (options : List (Name × DslValue)) : Artifact :=
  match env.service filename data options with
  | .ok a => setViaService a
  | .serviceError m => errorArtifact filename ("service error: ".data ++ m)
  | .otherExn m =>
    errorArtifact filename ("service processing failed: ".data ++ m)

/-- The `service` mode branch (core.py, lines 126-142): try the service
first (returning its artifact only when it carries no truthy error
flag, exceptions falling through), then the local processor. -/
def serviceModeBranch (env : CoreEnv) (filename : Name) (data : Blob)
    (options : List (Name × DslValue)) (key : Option Name)
    (proc : Option ProcFn) : Artifact :=
  let afterService : Option Artifact :=
    if keyTruthy key then
      match env.service filename data options with
      | .ok a =>
        if flagsErrorTruthy (setViaService a) = false then some (setViaService a)
        else none
      | .serviceError m =>
        if flagsErrorTruthy (errorArtifact filename
            ("service error: ".data ++ m)) = false then
          some (errorArtifact filename ("service error: ".data ++ m))
        else none
      | .otherExn _ => none
    else none
  match afterService with
  | some a => a
  | none =>
    match proc with
    | none => emptyArtifact filename "no processor available".data
    | some p =>
      match p data filename options with
      | .ok r => r
      | .error e => errorArtifact filename ("processing failed: ".data ++ e)

/-- `_process_single` (core.py, lines 83-170).  A `.error` result is an
exception escaping `_process_single` (possible only in `service-only`
mode, where `_process_via_service` is not wrapped in a
`try/except Exception`). -/
def processSingle (env : CoreEnv) (filename : Name) (data : Blob)
    (apiKey prefer : Option Name) (options : List (Name × DslValue)) :
    Except Name Artifact :=
  let key := getApiKeyR env apiKey
  let mode := getPreferR env prefer
  let proc := routeProcessor env.processors filename data.bytes
  if mode = "service-only".data then
    if keyTruthy key = false then
      .ok (errorArtifact filename "service-only mode but no API key configured".data)
    else processViaService env filename data options
  else if mode = "local-only".data then
    match proc with
    | none => .ok (emptyArtifact filename "no local processor available".data)
    | some p =>
      match p data filename options with
      | .ok result => .ok result
      | .error e =>
        .ok (errorArtifact filename ("local processing failed: ".data ++ e))
  else if mode = "service".data then
    .ok (serviceModeBranch env filename data options key proc)
  else
    match proc with
    | some p =>
      match p data filename options with
      | .ok result =>
        if (!hasMeaningfulError result || !keyTruthy key) = true then
          .ok result
        else .ok (localModeServiceStep env filename data options)
      | .error e =>
        if keyTruthy key = false then
          .ok (errorArtifact filename ("local processing failed: ".data ++ e))
        else .ok (localModeServiceStep env filename data options)
    | none =>
      if keyTruthy key then .ok (localModeServiceStep env filename data options)
      else .ok (emptyArtifact filename "no processor available".data)

/-- The per-file loop of `att` (core.py, lines 326-335): process each
unpacked pair in order, normalizing each artifact against its virtual
name; an exception escaping `_process_single` aborts the loop. -/
def attLoop (env : CoreEnv) (apiKey prefer : Option Name)
    (options : List (Name × DslValue)) :
    List (Name × Blob) → Except Name (List Artifact)
  | [] => .ok []
  | (fname, data) :: rest =>
    match processSingle env fname data apiKey prefer options with
    | .error e => .error e
    | .ok a =>
      match attLoop env apiKey prefer options rest with
      | .error e => .error e
      | .ok arts => .ok (normalizeArtifact a fname :: arts)

/-- `att` (core.py, lines 222-337): parse the DSL suffix, merge explicit
options over DSL options, rewrite source-specific options, unpack (with
the service fallback for unpack failures), then process file by file. -/
def att (env : CoreEnv) (input : Name) (apiKey prefer : Option Name)
    (kwOptions : List (Name × DslValue)) : Except Name (List Artifact) :=
  let parsed := parseDsl input
  let merged := dictUpdate parsed.2 kwOptions
  let rewritten := applySourceOptions parsed.1 merged
  match unpack env.ue env.handlers [] rewritten.1 with
  | .ok pairs => attLoop env apiKey prefer rewritten.2 pairs
  | .error e =>
    if keyTruthy (getApiKeyR env apiKey) &&
        decide (getPreferR env prefer ≠ "local-only".data) then
      match env.serviceUnpackFn rewritten.1 with
      | .ok pairs => attLoop env apiKey prefer rewritten.2 pairs
      | .serviceError m =>
        .ok [errorArtifact rewritten.1
          ("unpack failed: ".data ++ e ++ "; service: ".data ++ m)]
      | .importError _ =>
        .ok [errorArtifact rewritten.1 ("unpack failed: ".data ++ e)]
      | .otherExn m =>
        .ok [errorArtifact rewritten.1
          ("unpack failed: ".data ++ e ++ "; service: ".data ++ m)]
    else .ok [errorArtifact rewritten.1 ("unpack failed: ".data ++ e)]

/-! ## C4: whole-input unpack failures -/

/-- The input string `att` actually keys failures by: the raw input
after DSL-suffix stripping and source-option rewriting. -/
def attRewrittenInput (input : Name) (kwOptions : List (Name × DslValue)) : Name :=
  (applySourceOptions (parseDsl input).1
    (dictUpdate (parseDsl input).2 kwOptions)).1

/-- A concrete environment in which every unpack fails and the service
is an exception-throwing stub. -/
def c4Env : CoreEnv where
  ue := emptyUnpackEnv
  handlers := []
  processors := []
  service := fun _ _ _ => .otherExn []
  serviceUnpackFn := fun _ => .otherExn []
  cfgApiKey := none
  cfgPrefer := "local".data

/-- Counterexample for C4 as stated: calling `att` on the raw input
`"missing.bin[pages: 1]"` (whose unpack fails) produces one error
artifact keyed by the DSL-stripped `"missing.bin"` - not by the raw
input string. -/
theorem c4_att_error_keyed_counterexample :
    (att c4Env "missing.bin[pages: 1]".data none none []).map
        (List.map (fun a => (a.flags.getD {}).source)) =
      .ok [some "missing.bin".data] ∧
    "missing.bin".data ≠ "missing.bin[pages: 1]".data := by
  exact ⟨rfl, by decide⟩

/-- C4 (amended): when unpacking the DSL-stripped, option-rewritten
input fails, and the service fallback is unavailable (no truthy key or
`local-only` mode) or itself fails, `att` returns - without raising -
a single-element list containing one error artifact keyed by that
rewritten input string. -/
theorem c4_att_unpack_failure_single_error :
    ∀ (env : CoreEnv) (input : Name) (apiKey prefer : Option Name)
      (kwOptions : List (Name × DslValue)) (e : Name),
      unpack env.ue env.handlers [] (attRewrittenInput input kwOptions) =
        .error e →
      (keyTruthy (getApiKeyR env apiKey) = false ∨
          getPreferR env prefer = "local-only".data →
        att env input apiKey prefer kwOptions =
          .ok [errorArtifact (attRewrittenInput input kwOptions)
            ("unpack failed: ".data ++ e)]) ∧
      (∀ m, keyTruthy (getApiKeyR env apiKey) = true →
        getPreferR env prefer ≠ "local-only".data →
        env.serviceUnpackFn (attRewrittenInput input kwOptions) =
          .serviceError m →
        att env input apiKey prefer kwOptions =
          .ok [errorArtifact (attRewrittenInput input kwOptions)
            ("unpack failed: ".data ++ e ++ "; service: ".data ++ m)]) ∧
      (∀ m, keyTruthy (getApiKeyR env apiKey) = true →
        getPreferR env prefer ≠ "local-only".data →
        env.serviceUnpackFn (attRewrittenInput input kwOptions) =
          .importError m →
        att env input apiKey prefer kwOptions =
          .ok [errorArtifact (attRewrittenInput input kwOptions)
            ("unpack failed: ".data ++ e)]) ∧
      (∀ m, keyTruthy (getApiKeyR env apiKey) = true →
        getPreferR env prefer ≠ "local-only".data →
        env.serviceUnpackFn (attRewrittenInput input kwOptions) =
          .otherExn m →
        att env input apiKey prefer kwOptions =
          .ok [errorArtifact (attRewrittenInput input kwOptions)
            ("unpack failed: ".data ++ e ++ "; service: ".data ++ m)]) := by
  intro env input apiKey prefer kwOptions e hunpack
  rw [attRewrittenInput] at hunpack
  refine ⟨?_, ?_, ?_, ?_⟩
  · intro hno
    have hcond : (keyTruthy (getApiKeyR env apiKey) &&
        decide (getPreferR env prefer ≠ "local-only".data)) = false := by
      rcases hno with h | h
      · simp [h]
      · simp [h]
    rw [att, hunpack]
    simp only [attRewrittenInput]
    rw [if_neg (by rw [hcond]; exact Bool.false_ne_true)]
  · intro m hkey hmode hsvc
    have hcond : (keyTruthy (getApiKeyR env apiKey) &&
        decide (getPreferR env prefer ≠ "local-only".data)) = true := by
      simp [hkey, hmode]
    rw [attRewrittenInput] at hsvc
    rw [att, hunpack]
    simp only [attRewrittenInput]
    rw [if_pos hcond, hsvc]
  · intro m hkey hmode hsvc
    have hcond : (keyTruthy (getApiKeyR env apiKey) &&
        decide (getPreferR env prefer ≠ "local-only".data)) = true := by
      simp [hkey, hmode]
    rw [attRewrittenInput] at hsvc
    rw [att, hunpack]
    simp only [attRewrittenInput]
    rw [if_pos hcond, hsvc]
  · intro m hkey hmode hsvc
    have hcond : (keyTruthy (getApiKeyR env apiKey) &&
        decide (getPreferR env prefer ≠ "local-only".data)) = true := by
      simp [hkey, hmode]
    rw [attRewrittenInput] at hsvc
    rw [att, hunpack]
    simp only [attRewrittenInput]
    rw [if_pos hcond, hsvc]

/-- Witness for C4 at the concrete failing environment. -/
theorem c4_att_unpack_failure_single_error_witness :
    att c4Env "missing.bin".data none none [] =
      .ok [errorArtifact (attRewrittenInput "missing.bin".data [])
        ("unpack failed: ".data ++
          ("Unsupported or non-existent input: ".data ++ "missing.bin".data))] := by
  exact (c4_att_unpack_failure_single_error c4Env "missing.bin".data none none []
    ("Unsupported or non-existent input: ".data ++ "missing.bin".data)
    rfl).1 (Or.inl rfl)

/-! ## C5: artifact normalization and one artifact per pair -/

/-- The unpack environment for the C5 counterexample: one readable
local file `a.txt`. -/
def c5FileEnv : UnpackEnv where
  fs := fun p =>
    if p = "a.txt".data then some (.fileEntry (Blob.raw [104])) else none
  cloneFn := fun _ _ => .error []
  download := fun _ => .error []

/-- A processor that supplies its own `flags.source`. -/
def evilProc : ProcFn := fun _ _ _ =>
  .ok { flags := some { source := some "evil".data } }

def c5Env : CoreEnv where
  ue := c5FileEnv
  handlers := []
  processors := [(".txt".data, evilProc)]
  service := fun _ _ _ => .otherExn []
  serviceUnpackFn := fun _ => .otherExn []
  cfgApiKey := none
  cfgPrefer := "local".data

/-- Counterexample for C5 as stated: `_normalize_artifact` only
`setdefault`s `flags.source`, so a processor that returns its own
`source` flag wins, and the artifact `att` returns for `a.txt` carries
`flags.source = "evil"`, not the originating virtual name. -/
theorem c5_flags_source_counterexample :
    (att c5Env "a.txt".data none none []).map
        (List.map (fun a => (a.flags.getD {}).source)) =
      .ok [some "evil".data] ∧
    "evil".data ≠ "a.txt".data := by
  exact ⟨rfl, by decide⟩

/-- C5 (amended): after normalization the keys `text`, `images`,
`audio`, `video`, `flags` are all present and `flags.source` is
present; `flags.source` equals the originating virtual name whenever
the processor did not itself set a `source` flag (a processor-supplied
value is preserved); and a successful `att` loop yields exactly one
normalized artifact per unpacked `(name, bytes)` pair, in order. -/
theorem c5_artifact_normalization :
    (∀ (a : Artifact) (src : Name),
      (normalizeArtifact a src).text.isSome = true ∧
      (normalizeArtifact a src).images.isSome = true ∧
      (normalizeArtifact a src).audio.isSome = true ∧
      (normalizeArtifact a src).video.isSome = true ∧
      (normalizeArtifact a src).flags.isSome = true ∧
      (((normalizeArtifact a src).flags.getD {}).source).isSome = true) ∧
    (∀ (a : Artifact) (src : Name),
      ((a.flags.getD {}).source) = none →
      (((normalizeArtifact a src).flags.getD {}).source) = some src) ∧
    (∀ (a : Artifact) (src x : Name),
      ((a.flags.getD {}).source) = some x →
      (((normalizeArtifact a src).flags.getD {}).source) = some x) ∧
    (∀ (env : CoreEnv) (apiKey prefer : Option Name)
        (options : List (Name × DslValue)) (pairs : List (Name × Blob))
        (arts : List Artifact),
      attLoop env apiKey prefer options pairs = .ok arts →
      arts.length = pairs.length ∧
      ∀ (i : Nat) (hi : i < arts.length) (hp : i < pairs.length),
        ∃ a, processSingle env (pairs.get ⟨i, hp⟩).1 (pairs.get ⟨i, hp⟩).2
            apiKey prefer options = .ok a ∧
          arts.get ⟨i, hi⟩ = normalizeArtifact a (pairs.get ⟨i, hp⟩).1) := by
  have hsd : ∀ {α : Type} (o : Option α) (d : α), (setdefaultO o d).isSome = true := by
    intro α o d
    cases o <;> rfl
  refine ⟨?_, ?_, ?_, ?_⟩
  · intro a src
    cases hf : a.flags with
    | none => simp [normalizeArtifact, hf, hsd]
    | some f =>
      cases hs : f.source with
      | none => simp [normalizeArtifact, hf, hs, hsd]
      | some x => simp [normalizeArtifact, hf, hs, hsd]
  · intro a src hs
    simp only [normalizeArtifact, Option.getD_some, hs]
    simp [setdefaultO, hs]
  · intro a src x hs
    simp only [normalizeArtifact, Option.getD_some]
    simp [setdefaultO, hs]
  · intro env apiKey prefer options pairs
    induction pairs with
    | nil =>
      intro arts h
      rw [attLoop] at h
      cases h
      exact ⟨rfl, fun i hi hp => absurd hp (by simp)⟩
    | cons pair rest ih =>
      intro arts h
      obtain ⟨fname, data⟩ := pair
      rw [attLoop] at h
      cases hps : processSingle env fname data apiKey prefer options with
      | error e => rw [hps] at h; cases h
      | ok a =>
        rw [hps] at h
        cases hrest : attLoop env apiKey prefer options rest with
        | error e => rw [hrest] at h; cases h
        | ok arts' =>
          rw [hrest] at h
          cases h
          obtain ⟨hlen, hidx⟩ := ih arts' hrest
          refine ⟨by simp [hlen], ?_⟩
          intro i hi hp
          cases i with
          | zero => exact ⟨a, hps, rfl⟩
          | succ j =>
            have hj : j < arts'.length := by
              simp at hi
              omega
            have hjp : j < rest.length := by
              simp at hp
              omega
            exact hidx j hj hjp

/-- Witness for C5 at the concrete single-file environment. -/
theorem c5_artifact_normalization_witness :
    ∃ a, processSingle c5Env "a.txt".data (Blob.raw [104]) none none [] =
        .ok a ∧
      [normalizeArtifact { flags := some { source := some "evil".data } }
          "a.txt".data].get ⟨0, by norm_num⟩ =
        normalizeArtifact a "a.txt".data := by
  exact (c5_artifact_normalization.2.2.2 c5Env none none []
    [("a.txt".data, Blob.raw [104])]
    [normalizeArtifact { flags := some { source := some "evil".data } }
      "a.txt".data] rfl).2 0 (by norm_num) (by norm_num)

/-! ## C6: the default `local` preference mode -/

/-- C6 (amended): in the default `local` mode with a local processor
present, the processor runs first; when it *returns* an artifact, the
service is retried only when that artifact's error flag matches a
dependency-missing indicator substring and a truthy credential is
configured, otherwise the local result is returned as-is; when the
processor *raises*, the orchestrator retries via the remote service
whenever a truthy credential is configured (the wrapped service step,
which may return a success artifact and never raises), and only without
a credential converts the exception into an error artifact tagged with
the originating filename. -/
theorem c6_local_mode_fallback :
    (∀ a : Artifact, hasMeaningfulError a = true ↔
      ∃ ind ∈ DEP_INDICATORS,
        lowerName ind <:+: lowerName (((a.flags.getD {}).error).getD [])) ∧
    (∀ (env : CoreEnv) (filename : Name) (data : Blob)
        (apiKey prefer : Option Name) (options : List (Name × DslValue))
        (p : ProcFn) (result : Artifact),
      getPreferR env prefer = "local".data →
      routeProcessor env.processors filename (Blob.bytes data) = some p →
      p data filename options = .ok result →
      hasMeaningfulError result = false →
      processSingle env filename data apiKey prefer options = .ok result) ∧
    (∀ (env : CoreEnv) (filename : Name) (data : Blob)
        (apiKey prefer : Option Name) (options : List (Name × DslValue))
        (p : ProcFn) (result : Artifact),
      getPreferR env prefer = "local".data →
      routeProcessor env.processors filename (Blob.bytes data) = some p →
      p data filename options = .ok result →
      hasMeaningfulError result = true →
      keyTruthy (getApiKeyR env apiKey) = false →
      processSingle env filename data apiKey prefer options = .ok result) ∧
    (∀ (env : CoreEnv) (filename : Name) (data : Blob)
        (apiKey prefer : Option Name) (options : List (Name × DslValue))
        (p : ProcFn) (result : Artifact),
      getPreferR env prefer = "local".data →
      routeProcessor env.processors filename (Blob.bytes data) = some p →
      p data filename options = .ok result →
      hasMeaningfulError result = true →
      keyTruthy (getApiKeyR env apiKey) = true →
      processSingle env filename data apiKey prefer options =
        .ok (localModeServiceStep env filename data options)) ∧
    (∀ (env : CoreEnv) (filename : Name) (data : Blob)
        (apiKey prefer : Option Name) (options : List (Name × DslValue))
        (p : ProcFn) (e : Name),
      getPreferR env prefer = "local".data →
      routeProcessor env.processors filename (Blob.bytes data) = some p →
      p data filename options = .error e →
      keyTruthy (getApiKeyR env apiKey) = false →
      processSingle env filename data apiKey prefer options =
        .ok (errorArtifact filename ("local processing failed: ".data ++ e))) ∧
    (∀ (env : CoreEnv) (filename : Name) (data : Blob)
        (apiKey prefer : Option Name) (options : List (Name × DslValue))
        (p : ProcFn) (e : Name),
      getPreferR env prefer = "local".data →
      routeProcessor env.processors filename (Blob.bytes data) = some p →
      p data filename options = .error e →
      keyTruthy (getApiKeyR env apiKey) = true →
      processSingle env filename data apiKey prefer options =
        .ok (localModeServiceStep env filename data options)) := by
  refine ⟨?_, ?_, ?_, ?_, ?_, ?_⟩
  · intro a
    simp [hasMeaningfulError, List.any_eq_true]
  · intro env filename data apiKey prefer options p result hmode hroute hp hdep
    simp only [processSingle, hmode]
    rw [if_neg (by decide), if_neg (by decide), if_neg (by decide)]
    simp [hroute, hp, hdep]
  · intro env filename data apiKey prefer options p result hmode hroute hp hdep hkey
    simp only [processSingle, hmode]
    rw [if_neg (by decide), if_neg (by decide), if_neg (by decide)]
    simp [hroute, hp, hdep, hkey]
  · intro env filename data apiKey prefer options p result hmode hroute hp hdep hkey
    simp only [processSingle, hmode]
    rw [if_neg (by decide), if_neg (by decide), if_neg (by decide)]
    simp [hroute, hp, hdep, hkey]
  · intro env filename data apiKey prefer options p e hmode hroute hp hkey
    simp only [processSingle, hmode]
    rw [if_neg (by decide), if_neg (by decide), if_neg (by decide)]
    simp [hroute, hp, hkey]
  · intro env filename data apiKey prefer options p e hmode hroute hp hkey
    simp only [processSingle, hmode]
    rw [if_neg (by decide), if_neg (by decide), if_neg (by decide)]
    simp [hroute, hp, hkey]

/-- A concrete environment for the C6 witness: a `.txt` processor in
default `local` mode with no credential. -/
def c6Env : CoreEnv where
  ue := emptyUnpackEnv
  handlers := []
  processors := [(".txt".data, fun _ _ _ => .ok { text := some "hi".data })]
  service := fun _ _ _ => .otherExn []
  serviceUnpackFn := fun _ => .otherExn []
  cfgApiKey := none
  cfgPrefer := "local".data

/-- Witness for C6: the local processor's successful result is returned
as-is. -/
theorem c6_local_mode_fallback_witness :
    processSingle c6Env "a.txt".data (Blob.raw [104]) none none [] =
      .ok { text := some "hi".data } := by
  exact c6_local_mode_fallback.2.1 c6Env "a.txt".data (Blob.raw [104]) none none
    [] (fun _ _ _ => .ok { text := some "hi".data }) { text := some "hi".data }
    rfl rfl rfl rfl

/-- An environment for the C6 counterexample: default `local` mode, a
configured credential, a `.txt` processor that raises an exception
unrelated to missing dependencies, and a service that succeeds. -/
def c6xEnv : CoreEnv where
  ue := emptyUnpackEnv
  handlers := []
  processors := [(".txt".data, fun _ _ _ => .error "boom".data)]
  service := fun _ _ _ => .ok { text := some "from service".data }
  serviceUnpackFn := fun _ => .otherExn []
  cfgApiKey := some "k".data
  cfgPrefer := "local".data

/-- Counterexample for C6 as stated: with a credential configured, a
processor exception (no dependency-indicator error flag is involved)
makes `_process_single` retry via the remote service, and the result is
the service's *success* artifact (`via: service`, no error flag) - not
an error artifact tagged with the originating filename. -/
theorem c6_local_mode_fallback_counterexample :
    processSingle c6xEnv "a.txt".data (Blob.raw [104]) none none [] =
      .ok { text := some "from service".data,
            flags := some { via := some "service".data } } ∧
    (({ text := some "from service".data,
        flags := some { via := some "service".data } } : Artifact).flags.getD
          {}).error = none := by
  exact ⟨rfl, rfl⟩

/-! ## C8: registry reset semantics -/

/-- `_normalize_key` (processors/__init__.py, lines 15-21): strip;
dunder sentinel keys pass through; otherwise prepend a dot when missing
and lowercase. -/
def normalizeKey (key : Name) : Name :=
  let k := pyStrip key
  if "__".data.isPrefixOf k then k
  else lowerName (if k.head? = some '.' then k else '.' :: k)

/-- The mutations `register_processor` / the `processor` decorator
perform on the global processor registry (processors/__init__.py,
lines 24-89). -/
inductive ProcRegOp where
  | register (key : Name) (f : ProcFn) : ProcRegOp
  | registerMulti (exts : List Name) (f : ProcFn) : ProcRegOp

def applyProcRegOp (reg : List (Name × ProcFn)) : ProcRegOp → List (Name × ProcFn)
  | .register key f => dictInsert reg (normalizeKey key) f
  | .registerMulti exts f =>
    exts.foldl (fun r e => dictInsert r (normalizeKey e) f) reg

def applyProcRegOps (reg : List (Name × ProcFn)) (ops : List ProcRegOp) :
    List (Name × ProcFn) :=
  ops.foldl applyProcRegOp reg

/-- `reset_processors` (processors/__init__.py, lines 99-108):
`processors.clear(); processors.update(_default_processors)` - the new
contents are rebuilt from the frozen snapshot alone, whatever the
current state is. -/
def resetProcessors (snapshot : List (Name × ProcFn))
    (_current : List (Name × ProcFn)) : List (Name × ProcFn) :=
  dictUpdate [] snapshot

/-- The operations available on the `extra_unpack_handlers` registry
(unpack.py, lines 23-91): `register_unpack_handler` and the `source`
decorator.  The module exports no reset operation for this registry. -/
inductive UnpackRegOp where
  | register (pfx : Name) (h : UnpackHandler) : UnpackRegOp
  | sourceMulti (pfxs : List Name) (h : UnpackHandler) : UnpackRegOp

def applyUnpackRegOp (reg : List (Name × UnpackHandler)) :
    UnpackRegOp → List (Name × UnpackHandler)
  | .register pfx h => dictInsert reg pfx h
  | .sourceMulti pfxs h => pfxs.foldl (fun r p => dictInsert r p h) reg

/-- The unpack-handler registry at first import: empty (unpack.py line
24 initializes `extra_unpack_handlers = {}`; GitHub and HTTP support are
hard-coded in `unpack`, not registered). -/
def defaultUnpackHandlers : List (Name × UnpackHandler) := []

/-- States reachable from `s` through the unpack-registry API. -/
inductive UnpackRegReachable :
    List (Name × UnpackHandler) → List (Name × UnpackHandler) → Prop where
  | refl (s : List (Name × UnpackHandler)) : UnpackRegReachable s s
  | step (s t : List (Name × UnpackHandler)) (op : UnpackRegOp) :
      UnpackRegReachable s t → UnpackRegReachable s (applyUnpackRegOp t op)

/-- Key presence in a registry. -/
def hasKey {α : Type} (reg : List (Name × α)) (k : Name) : Bool :=
  reg.any (fun kv => decide (kv.1 = k))

theorem hasKey_dictInsert {α : Type} (reg : List (Name × α)) (k' : Name) (v : α)
    (k : Name) (h : hasKey reg k = true) :
    hasKey (dictInsert reg k' v) k = true := by
  rw [dictInsert]
  by_cases hmem : reg.any (fun kv => decide (kv.1 = k')) = true
  · rw [if_pos hmem]
    obtain ⟨kv, hkv, hk⟩ := List.any_eq_true.mp h
    refine List.any_eq_true.mpr
      ⟨if kv.1 = k' then (k', v) else kv, List.mem_map.mpr ⟨kv, hkv, rfl⟩, ?_⟩
    have hkk : kv.1 = k := of_decide_eq_true hk
    by_cases hq : kv.1 = k'
    · rw [if_pos hq]
      exact decide_eq_true (hq.symm.trans hkk)
    · rw [if_neg hq]
      exact hk
  · rw [if_neg hmem]
    rw [hasKey] at h
    simp [hasKey, List.any_append, h]

theorem hasKey_applyUnpackRegOp (op : UnpackRegOp)
    (reg : List (Name × UnpackHandler)) (k : Name)
    (h : hasKey reg k = true) :
    hasKey (applyUnpackRegOp reg op) k = true := by
  cases op with
  | register pfx hf => exact hasKey_dictInsert reg pfx hf k h
  | sourceMulti pfxs hf =>
    rw [applyUnpackRegOp]
    induction pfxs generalizing reg with
    | nil => exact h
    | cons p rest ih =>
      exact ih (dictInsert reg p hf) (hasKey_dictInsert reg p hf k h)

theorem unpackRegReachable_hasKey (s t : List (Name × UnpackHandler))
    (h : UnpackRegReachable s t) (k : Name) (hk : hasKey s k = true) :
    hasKey t k = true := by
  induction h with
  | refl => exact hk
  | step t op hreach ih => exact hasKey_applyUnpackRegOp op t k ih

/-- A trivial handler for the concrete registry states. -/
def stubHandler : UnpackHandler := fun _ => .ok []

/-- Counterexample for C8 as stated: the unpack-handler registry has no
reset-to-defaults operation - after registering a custom `x://` handler,
no sequence of the registry's operations (registration and the `source`
decorator, which only add or overwrite entries) can ever restore the
built-in (empty) state captured at first import. -/
theorem c8_unpack_registry_no_reset_counterexample :
    ¬ UnpackRegReachable
        (applyUnpackRegOp defaultUnpackHandlers (.register "x://".data stubHandler))
        defaultUnpackHandlers := by
  intro h
  have h0 : hasKey
      (applyUnpackRegOp defaultUnpackHandlers (.register "x://".data stubHandler))
      "x://".data = true := by
    rfl
  have h1 := unpackRegReachable_hasKey _ _ h "x://".data h0
  simp [hasKey, defaultUnpackHandlers] at h1

theorem dictUpdate_append {α : Type} (l : List (Name × α)) :
    ∀ base : List (Name × α), ((base ++ l).map Prod.fst).Nodup →
      dictUpdate base l = base ++ l := by
  induction l with
  | nil =>
    intro base _
    rw [dictUpdate, List.append_nil]
  | cons kv rest ih =>
    intro base h
    obtain ⟨k, v⟩ := kv
    have h' : ((base ++ [(k, v)] ++ rest).map Prod.fst).Nodup := by
      rw [List.append_assoc, List.singleton_append]
      exact h
    have hk : k ∉ base.map Prod.fst := by
      rw [List.map_append, List.nodup_append] at h
      intro hmem
      exact h.2.2 hmem (List.mem_cons_self k (rest.map Prod.fst))
    have hnot : ¬ base.any (fun kv => decide (kv.1 = k)) = true := by
      intro hq
      obtain ⟨kv, hkv, hkk⟩ := List.any_eq_true.mp hq
      exact hk (List.mem_map.mpr ⟨kv, hkv, of_decide_eq_true hkk⟩)
    have hins : dictInsert base k v = base ++ [(k, v)] := by
      rw [dictInsert, if_neg hnot]
    rw [dictUpdate, hins, ih (base ++ [(k, v)]) h', List.append_assoc,
      List.singleton_append]

/-- C8 (amended): the processor registry's `reset_processors` restores,
after any sequence of registrations, exactly the built-in snapshot
captured at first import; the unpack-handler registry, in contrast, has
no reset operation - its two operations only add or overwrite entries,
so key presence is monotone and the default state is unreachable once a
custom handler has been registered. -/
theorem c8_registry_reset_semantics :
    (∀ (snapshot : List (Name × ProcFn)) (ops : List ProcRegOp),
      (snapshot.map Prod.fst).Nodup →
      resetProcessors snapshot (applyProcRegOps snapshot ops) = snapshot) ∧
    (∀ (op : UnpackRegOp) (reg : List (Name × UnpackHandler)) (k : Name),
      hasKey reg k = true → hasKey (applyUnpackRegOp reg op) k = true) := by
  constructor
  · intro snapshot ops hnodup
    rw [resetProcessors, dictUpdate_append snapshot [] (by simpa using hnodup),
      List.nil_append]
  · exact hasKey_applyUnpackRegOp

/-- A stub processor for the concrete witness registry. -/
def stubProc : ProcFn := fun _ _ _ => .ok {}

/-- Witness for C8 at a concrete snapshot and registration sequence. -/
theorem c8_registry_reset_semantics_witness :
    resetProcessors [("__text__".data, stubProc)]
        (applyProcRegOps [("__text__".data, stubProc)]
          [.register ".xyz".data stubProc]) =
      [("__text__".data, stubProc)] ∧
    hasKey (applyUnpackRegOp [("x://".data, stubHandler)]
        (.register "y://".data stubHandler)) "x://".data = true := by
  constructor
  · exact c8_registry_reset_semantics.1 [("__text__".data, stubProc)]
      [.register ".xyz".data stubProc] (by simp)
  · exact c8_registry_reset_semantics.2 (.register "y://".data stubHandler)
      [("x://".data, stubHandler)] "x://".data rfl

end Attachments
